import Mathlib

/-!
# Verification of the ol3 coverage-rendering module

Shallow embedding of the coverage data model (`ol/coverage/Band`), the raster
style engines (`ol/style/Monochrome`, `ol/style/Pseudocolor`, `ol/style/RGB`),
the coverage source's `getStyledBand`, the canvas/WebGL coverage layer
renderers' `prepareFrame`, and the WebGL polygon replay's hit-detection loop.

JavaScript numbers are modelled by `JNum`: an exact rational together with the
special values `Infinity`, `-Infinity` and `NaN`, with the IEEE-754 propagation
rules JavaScript uses for the operations that actually occur in the embedded
code.  Raw matrix data is modelled as lists of rationals (finite numeric cell
values); the special values arise only through the embedded computations
(statistics sentinels, division by zero, undefined operands).
-/

namespace OlCov

/-- A JavaScript number: a finite (exact) rational, one of the two infinities,
or `NaN`. -/
inductive JNum where
  | num (q : ℚ)
  | posInf
  | negInf
  | nan
deriving DecidableEq, Repr

namespace JNum

/-- JavaScript addition (`a + b`) on numbers, with IEEE special-value rules:
`Infinity + -Infinity = NaN`, `NaN` propagates. -/
def jadd : JNum → JNum → JNum
  | num a, num b => num (a + b)
  | num _, posInf => posInf
  | num _, negInf => negInf
  | posInf, num _ => posInf
  | negInf, num _ => negInf
  | posInf, posInf => posInf
  | negInf, negInf => negInf
  | posInf, negInf => nan
  | negInf, posInf => nan
  | _, _ => nan

/-- JavaScript unary negation. -/
def jneg : JNum → JNum
  | num a => num (-a)
  | posInf => negInf
  | negInf => posInf
  | nan => nan

/-- JavaScript subtraction (`a - b`). -/
def jsub (a b : JNum) : JNum := jadd a (jneg b)

/-- JavaScript multiplication (`a * b`): `0 * Infinity = NaN`, signs as usual,
`NaN` propagates. -/
def jmul : JNum → JNum → JNum
  | num a, num b => num (a * b)
  | num a, posInf => if a > 0 then posInf else if a < 0 then negInf else nan
  | num a, negInf => if a > 0 then negInf else if a < 0 then posInf else nan
  | posInf, num b => if b > 0 then posInf else if b < 0 then negInf else nan
  | negInf, num b => if b > 0 then negInf else if b < 0 then posInf else nan
  | posInf, posInf => posInf
  | negInf, negInf => posInf
  | posInf, negInf => negInf
  | negInf, posInf => negInf
  | _, _ => nan

/-- JavaScript division (`a / b`): `x / 0` is a signed infinity for `x ≠ 0`,
`0 / 0 = NaN`, `Infinity / Infinity = NaN`, finite divided by infinity is `0`
(the sign of zero is not tracked). -/
def jdiv : JNum → JNum → JNum
  | num a, num b =>
    if b = 0 then (if a > 0 then posInf else if a < 0 then negInf else nan)
    else num (a / b)
  | num _, posInf => num 0
  | num _, negInf => num 0
  | posInf, num b => if b ≥ 0 then posInf else negInf
  | negInf, num b => if b ≥ 0 then negInf else posInf
  | _, _ => nan

/-- JavaScript `<`: false whenever an operand is `NaN`. -/
def jlt : JNum → JNum → Bool
  | num a, num b => a < b
  | num _, posInf => true
  | negInf, num _ => true
  | negInf, posInf => true
  | _, _ => false

/-- JavaScript `<=`: false whenever an operand is `NaN`. -/
def jle : JNum → JNum → Bool
  | num a, num b => a ≤ b
  | num _, posInf => true
  | negInf, num _ => true
  | negInf, posInf => true
  | posInf, posInf => true
  | negInf, negInf => true
  | _, _ => false

/-- `Math.round`: round half toward `+∞`; special values are preserved. -/
def jround : JNum → JNum
  | num a => num ⌊a + 1/2⌋
  | posInf => posInf
  | negInf => negInf
  | nan => nan

/-- `Math.max` of two numbers (`NaN` propagates). -/
def jmax : JNum → JNum → JNum
  | nan, _ => nan
  | _, nan => nan
  | num a, num b => num (max a b)
  | posInf, _ => posInf
  | _, posInf => posInf
  | a, negInf => a
  | negInf, b => b

/-- `Math.min` of two numbers (`NaN` propagates). -/
def jmin : JNum → JNum → JNum
  | nan, _ => nan
  | _, nan => nan
  | num a, num b => num (min a b)
  | negInf, _ => negInf
  | _, negInf => negInf
  | a, posInf => a
  | posInf, b => b

/-- JavaScript truthiness of a number: `0` and `NaN` are falsy. -/
def jTruthy : JNum → Bool
  | num q => q ≠ 0
  | nan => false
  | _ => true

/-- `String(n)` for a JavaScript number.  Integers print as in JavaScript;
non-integral rationals are given a definite (if not digit-faithful) printing,
which no embedded theorem depends on. -/
def jToString : JNum → String
  | num q => if q.den = 1 then toString q.num else toString q.num ++ "/" ++ toString q.den
  | posInf => "Infinity"
  | negInf => "-Infinity"
  | nan => "NaN"

end JNum

open JNum

/-- `clamp` from `ol/math.js`: `Math.min(Math.max(value, min), max)`. -/
def clamp (value mn mx : JNum) : JNum := jmin (jmax value mn) mx

/-- `lerp` from `ol/math.js`: `a + x * (b - a)`, here with rational endpoints
(color components) and a possibly special ratio `x`. -/
def lerpQ (a b : ℚ) (x : JNum) : JNum := jadd (num a) (jmul x (jsub (num b) (num a)))

/-- Strict equality `v === nodata` between a finite matrix value and the
`nodata` argument, which may be `null` (`none`); `null` is never strictly
equal to a number. -/
def jsEqNodata (v : ℚ) (nodata : Option ℚ) : Bool :=
  match nodata with
  | some q => v = q
  | none => false

/-- Resolution of a style's possibly-undefined minimum in `apply`:
`typeof min !== 'number'` falls back to `Math.min.apply(matrix)`, which calls
`Math.min` with **no arguments** (a bug in the source) and therefore always
yields `Infinity`. -/
def effMin (m : Option JNum) : JNum := m.getD JNum.posInf

/-- Resolution of a style's possibly-undefined maximum in `apply`: the
fallback `Math.max.apply(matrix)` always yields `-Infinity` (no-argument
`Math.max`). -/
def effMax (m : Option JNum) : JNum := m.getD JNum.negInf

/-! ## `ol/style/Monochrome` -/

/-- The parameter state of a `Monochrome` style: possibly-undefined min/max
bounds and a possibly-undefined band index. -/
structure Monochrome where
  min? : Option JNum
  max? : Option JNum
  band : Option ℕ
deriving DecidableEq, Repr

/-- One loop iteration of `Monochrome.apply`: the grey byte is
`clamp(Math.round(255 * (v - min) / (max - min)), 0, 255)` (written three
times), and the alpha byte is `maxAlpha` when `v === nodata`, else
`minAlpha`. -/
def monoCell (mn mx : JNum) (nodata : Option ℚ) (minAlpha maxAlpha : ℚ) (v : ℚ) : List JNum :=
  let range := jsub mx mn
  let lerpv := jdiv (jsub (num v) mn) range
  let value := clamp (jround (jmul (num 255) lerpv)) (num 0) (num 255)
  [value, value, value, num (if jsEqNodata v nodata then maxAlpha else minAlpha)]

/-- `Monochrome.apply(matrix, nodata, minAlpha, maxAlpha)`: one interleaved
R,G,B,A group pushed per input cell, in input order. -/
def monochromeApply (s : Monochrome) (matrix : List ℚ) (nodata : Option ℚ)
    (minAlpha maxAlpha : ℚ) : List JNum :=
  matrix.flatMap (monoCell (effMin s.min?) (effMax s.max?) nodata minAlpha maxAlpha)

/-- `Monochrome.getChecksum()` (cache omitted; the cached string always equals
this recomputation because every mutator clears the cache). -/
def monochromeGetChecksum (s : Monochrome) : String :=
  "m" ++
    match s.band with
    | some b =>
        toString b ++ "," ++
          (match s.min? with | some m => jToString m | none => "-") ++ "," ++
          (match s.max? with | some m => jToString m | none => "-")
    | none => "-"

/-! ## `ol/style/Pseudocolor` -/

/-- An RGBA color as produced by `ol/color`'s `asArray`. -/
structure Color where
  r : ℚ
  g : ℚ
  b : ℚ
  a : ℚ
deriving DecidableEq, Repr

/-- `asString` from `ol/color.js`: `'rgba(' + r + ',' + g + ',' + b + ',' + a + ')'`. -/
def colorAsString (c : Color) : String :=
  "rgba(" ++ JNum.jToString (num c.r) ++ "," ++ JNum.jToString (num c.g) ++ "," ++
    JNum.jToString (num c.b) ++ "," ++ JNum.jToString (num c.a) ++ ")"

/-- `PseudocolorMode` enum. -/
inductive PseudocolorMode where
  | interpolate
  | categorized
deriving DecidableEq, Repr

/-- A breakpoint `[value, color]` as stored by `addBreakpoint`. -/
abbrev Breakpoint := ℚ × Color

/-- The comparator of `createIntervals_`'s `stableSort` call:
ascending by breakpoint value. -/
def bpLe (a b : Breakpoint) : Prop := a.1 ≤ b.1

instance : DecidableRel bpLe := fun a b => inferInstanceAs (Decidable (a.1 ≤ b.1))

instance : IsTotal Breakpoint bpLe := ⟨fun a b => le_total a.1 b.1⟩

instance : IsTrans Breakpoint bpLe := ⟨fun _ _ _ h h2 => le_trans h h2⟩

/-- `stableSort(breakpoints, (a, b) => a[0] - b[0])` from `ol/array.js`:
the unique stable ascending reordering by breakpoint value, realised here by
an insertion sort that keeps ties in their original relative order. -/
def stableSortBps (bps : List Breakpoint) : List Breakpoint :=
  List.insertionSort bpLe bps

/-- One `PseudocolorInterval`: lower and higher `(value, color)` breakpoints
and the precomputed `range = higher[0] - lower[0]`. -/
structure PInterval where
  lower : JNum × Color
  higher : JNum × Color
  range : JNum
deriving DecidableEq, Repr

/-- The interval-accumulation loop of `createIntervals_`: walk the sorted
breakpoints, keeping only those strictly between `min` and `max`, and close
with the `[max, endColor]` interval. -/
def intervalsLoop (mx : JNum) (eColor : Color) (mn : JNum) :
    JNum × Color → List Breakpoint → List PInterval
  | prev, [] => [⟨prev, (mx, eColor), jsub mx prev.1⟩]
  | prev, p :: rest =>
    if jlt mn (num p.1) && jlt (num p.1) mx then
      ⟨prev, (num p.1, p.2), jsub (num p.1) prev.1⟩ ::
        intervalsLoop mx eColor mn (num p.1, p.2) rest
    else
      intervalsLoop mx eColor mn prev rest

/-- The parameter state of a `Pseudocolor` style. -/
structure Pseudocolor where
  min? : Option JNum
  max? : Option JNum
  band : Option ℕ
  startColor : Color
  endColor : Color
  mode : PseudocolorMode
  breakpoints : List Breakpoint
deriving DecidableEq, Repr

/-- `Pseudocolor.createIntervals_(min, max)`: stable-sort the breakpoints
ascending by value, then build the interval chain from
`[min, startColor]` through the in-range breakpoints to `[max, endColor]`. -/
def createIntervals (s : Pseudocolor) (mn mx : JNum) : List PInterval :=
  intervalsLoop mx s.endColor mn (mn, s.startColor) (stableSortBps s.breakpoints)

/-- The color bytes pushed for one cell by `Pseudocolor.apply`: out-of-range
values become pure black (`v < min`) or pure white (`v > max`); in-range
values take the first interval with `v <= higher[0]`, flat color in
categorized mode, linear RGB blend otherwise.  When the inner loop finds no
interval (impossible for finite numeric bounds) no color byte is pushed. -/
def pseudoCellColors (mn mx : JNum) (categorized : Bool) (intervals : List PInterval)
    (v : ℚ) : List JNum :=
  if jlt (num v) mn || jlt mx (num v) then
    let value : ℚ := if jlt (num v) mn then 0 else 255
    [num value, num value, num value]
  else
    match intervals.find? (fun itv => jle (num v) itv.higher.1) with
    | none => []
    | some itv =>
      if categorized then
        [num itv.lower.2.r, num itv.lower.2.g, num itv.lower.2.b]
      else
        let ratio := jdiv (jsub (num v) itv.lower.1) itv.range
        [lerpQ itv.lower.2.r itv.higher.2.r ratio,
         lerpQ itv.lower.2.g itv.higher.2.g ratio,
         lerpQ itv.lower.2.b itv.higher.2.b ratio]

/-- All bytes pushed for one cell by `Pseudocolor.apply`: the color bytes
followed unconditionally by the alpha byte (`maxAlpha` iff `v === nodata`). -/
def pseudoCell (mn mx : JNum) (categorized : Bool) (intervals : List PInterval)
    (nodata : Option ℚ) (minAlpha maxAlpha : ℚ) (v : ℚ) : List JNum :=
  pseudoCellColors mn mx categorized intervals v ++
    [num (if jsEqNodata v nodata then maxAlpha else minAlpha)]

/-- `Pseudocolor.apply(matrix, nodata, minAlpha, maxAlpha)`. -/
def pseudocolorApply (s : Pseudocolor) (matrix : List ℚ) (nodata : Option ℚ)
    (minAlpha maxAlpha : ℚ) : List JNum :=
  let mn := effMin s.min?
  let mx := effMax s.max?
  let intervals := createIntervals s mn mx
  let categorized := s.mode = PseudocolorMode.categorized
  matrix.flatMap (pseudoCell mn mx categorized intervals nodata minAlpha maxAlpha)

/-- The breakpoint suffix of `Pseudocolor.getChecksum`: for a non-empty list,
`'(' + (value + ',' + asString(color) + ',')* + ')'` with the final comma
sliced off; `'-'` for an empty list. -/
def pseudoBpChecksum (bps : List Breakpoint) : String :=
  match bps with
  | [] => "-"
  | _ =>
    let body := String.join (bps.map fun p =>
      JNum.jToString (num p.1) ++ "," ++ colorAsString p.2 ++ ",")
    "(" ++ body.dropRight 1 ++ ")"

/-- `Pseudocolor.getChecksum()`.  The source's concatenation is mis-grouped:
`'p' + (bi + ',' + mode + ',' + min !== undefined ? min.toString() : …)`
parses as a conditional whose condition is a string (never `undefined`), so
for a defined band index the checksum is just `'p' + min.toString()` plus the
breakpoint suffix — mode, max, band index and the colors are dead code — and
it throws a `TypeError` (`none` here) when `min` is undefined. -/
def pseudocolorGetChecksum (s : Pseudocolor) : Option String :=
  match s.band with
  | none => some "p-"
  | some _ =>
    match s.min? with
    | none => none
    | some mn => some ("p" ++ JNum.jToString mn ++ pseudoBpChecksum s.breakpoints)

/-! ## `ol/coverage/Band` -/

/-- The `CoverageStatistics` record maintained by a `Band`. -/
structure CoverageStatistics where
  min : JNum
  max : JNum
  sum : ℚ
  count : ℕ
  variance : JNum
deriving DecidableEq, Repr

/-- `matrix[i] !== nullValue`: a finite cell value is never strictly equal to
`null`, and is compared exactly to a numeric null value. -/
def cellValid (nullValue : Option ℚ) (v : ℚ) : Bool :=
  match nullValue with
  | some nv => v ≠ nv
  | none => true

/-- One iteration of the first pass of `calculateStatistics` on the
`(min, max, sum, count)` accumulator: a non-null cell updates
`min = v < min ? v : min`, `max = v > max ? v : max`, `sum += v`,
`count++`. -/
def statsStep (nullValue : Option ℚ) (acc : JNum × JNum × ℚ × ℕ) (v : ℚ) :
    JNum × JNum × ℚ × ℕ :=
  if cellValid nullValue v then
    (if jlt (num v) acc.1 then num v else acc.1,
     if jlt acc.2.1 (num v) then num v else acc.2.1,
     acc.2.2.1 + v,
     acc.2.2.2 + 1)
  else acc

/-- First pass of `calculateStatistics`, starting from
`(Infinity, -Infinity, 0, 0)`. -/
def statsPass1 (nullValue : Option ℚ) (matrix : List ℚ) : JNum × JNum × ℚ × ℕ :=
  matrix.foldl (statsStep nullValue) (JNum.posInf, JNum.negInf, 0, 0)

/-- One iteration of the second pass of `calculateStatistics`:
`variance += Math.pow(matrix[i] - avg, 2)` for non-null cells. -/
def varStep (nullValue : Option ℚ) (avg : JNum) (acc : JNum) (v : ℚ) : JNum :=
  if cellValid nullValue v then jadd acc (jmul (jsub (num v) avg) (jsub (num v) avg))
  else acc

/-- Second pass of `calculateStatistics`. -/
def statsPass2 (nullValue : Option ℚ) (avg : JNum) (matrix : List ℚ) : JNum :=
  matrix.foldl (varStep nullValue avg) (num 0)

/-- `Band.calculateStatistics()`: two passes over the matrix; the average is
`sum / count` (NaN when `count = 0`) and the final variance is the second
pass divided by `count`. -/
def calculateStatistics (matrix : List ℚ) (nullValue : Option ℚ) : CoverageStatistics :=
  { min := (statsPass1 nullValue matrix).1
    max := (statsPass1 nullValue matrix).2.1
    sum := (statsPass1 nullValue matrix).2.2.1
    count := (statsPass1 nullValue matrix).2.2.2
    variance := jdiv
      (statsPass2 nullValue
        (jdiv (num (statsPass1 nullValue matrix).2.2.1)
          (num ((statsPass1 nullValue matrix).2.2.2 : ℚ))) matrix)
      (num ((statsPass1 nullValue matrix).2.2.2 : ℚ)) }

/-- A coverage `Band`: its (finite numeric) matrix data, null value
(`none` = `null`) and eagerly maintained statistics.  Spatial metadata
(extent, origin, stride, resolution) plays no part in the verified claims and
is omitted. -/
structure Band where
  matrix : List ℚ
  nullValue : Option ℚ
  statistics : CoverageStatistics
deriving DecidableEq, Repr

/-- `Band` construction: statistics are computed eagerly by the constructor. -/
def mkBand (matrix : List ℚ) (nodata : Option ℚ) : Band :=
  ⟨matrix, nodata, calculateStatistics matrix nodata⟩

/-- `Band.setNullValue(nullValue)`: store the new null value (`undefined`
becomes `null`, modelled by the `Option` argument) and recompute the
statistics only when it differs from the old one. -/
def setNullValue (b : Band) (nv : Option ℚ) : Band :=
  if b.nullValue ≠ nv then ⟨b.matrix, nv, calculateStatistics b.matrix nv⟩
  else ⟨b.matrix, nv, b.statistics⟩

/-! ## `fillMissingValues` (Monochrome and Pseudocolor) -/

/-- JavaScript truthiness of a possibly-undefined number:
`undefined`, `0` and `NaN` are falsy. -/
def optTruthy : Option JNum → Bool
  | none => false
  | some j => jTruthy j

/-- `Monochrome.fillMissingValues(bands)`: when the band index is defined and
the band exists, replace each **falsy** bound by the corresponding band
statistic, provided that statistic is itself truthy. -/
def monochromeFillMissingValues (s : Monochrome) (bands : List Band) : Monochrome :=
  match s.band with
  | none => s
  | some bi =>
    match bands.get? bi with
    | none => s
    | some b =>
      let stat := b.statistics
      let s1 := if !optTruthy s.min? && jTruthy stat.min then
          { s with min? := some stat.min } else s
      if !optTruthy s1.max? && jTruthy stat.max then
        { s1 with max? := some stat.max } else s1

/-- `Pseudocolor.fillMissingValues(bands)`: identical logic to the
monochrome variant. -/
def pseudocolorFillMissingValues (s : Pseudocolor) (bands : List Band) : Pseudocolor :=
  match s.band with
  | none => s
  | some bi =>
    match bands.get? bi with
    | none => s
    | some b =>
      let stat := b.statistics
      let s1 := if !optTruthy s.min? && jTruthy stat.min then
          { s with min? := some stat.min } else s
      if !optTruthy s1.max? && jTruthy stat.max then
        { s1 with max? := some stat.max } else s1

/-! ## `ol/style/RGB` -/

/-- The parameter state of an `RGB` composite style: one monochrome channel
style per color channel. -/
structure RGBStyle where
  red : Monochrome
  green : Monochrome
  blue : Monochrome
deriving DecidableEq, Repr

/-- `RGB.getBandIndex()`: the three channel band indices in RGB order. -/
def rgbBandIndex (s : RGBStyle) : List (Option ℕ) :=
  [s.red.band, s.green.band, s.blue.band]

/-- The effect of `RGB.apply`'s splice loop
(`if (bandIndices[i] === undefined) matrices.splice(i, 0, undefined)`):
walking the three channel slots left to right, a defined band index consumes
the next supplied matrix and an undefined one yields an `undefined` slot.
(When the caller supplies fewer matrices than defined indices, the missing
trailing reads are `undefined` as well.) -/
def spliceAlign : List Bool → List α → List (Option α)
  | [], ms => ms.map some
  | false :: bs, ms => none :: spliceAlign bs ms
  | true :: bs, [] => none :: spliceAlign bs []
  | true :: bs, m :: ms => some m :: spliceAlign bs ms

/-- `matrix[i]` as an arithmetic operand: out-of-range access is `undefined`,
which behaves as `NaN` in arithmetic. -/
def getJ (m : List ℚ) (i : ℕ) : JNum :=
  match m.get? i with
  | some q => num q
  | none => JNum.nan

/-- A possibly-`undefined` number as an arithmetic operand
(`undefined` behaves as `NaN`). -/
def undefJ : Option JNum → JNum
  | some j => j
  | none => JNum.nan

/-- One channel's byte in `RGB.apply`: a missing channel matrix contributes a
zero lerp, a present one contributes `(m[i] - min) / (max - min)` with the
channel's own (possibly undefined) bounds; the byte is
`clamp(Math.round(255 * lerp), 0, 255)`. -/
def rgbChannelByte (mc : Option (List ℚ)) (mn mx : Option JNum) (i : ℕ) : JNum :=
  let lerpv :=
    match mc with
    | none => num 0
    | some m => jdiv (jsub (getJ m i) (undefJ mn)) (jsub (undefJ mx) (undefJ mn))
  clamp (jround (jmul (num 255) lerpv)) (num 0) (num 255)

/-- Strict equality `matrices[c][i] === nodata[c]` where the cell read may be
`undefined` (out of range) and the nodata slot may be `undefined` (spliced,
outer `none`) or `null` (inner `none`): only `number === number` with equal
values, or `undefined === undefined`, is true. -/
def jsEqCell (v? : Option ℚ) (nodataSlot : Option (Option ℚ)) : Bool :=
  match v?, nodataSlot with
  | some a, some (some b) => a = b
  | none, none => true
  | _, _ => false

/-- One channel's nodata flag in `RGB.apply`: a missing channel matrix counts
as nodata; a present one compares its cell strictly to its nodata slot. -/
def rgbChannelNodata (mc : Option (List ℚ)) (nd : Option (Option ℚ)) (i : ℕ) : Bool :=
  match mc with
  | none => true
  | some m => jsEqCell (m.get? i) nd

/-- The three aligned channel matrices of `RGB.apply` after the splice loop. -/
def rgbAligned (s : RGBStyle) (matrices : List (List ℚ)) : List (Option (List ℚ)) :=
  spliceAlign ((rgbBandIndex s).map Option.isSome) matrices

/-- The three aligned nodata slots of `RGB.apply` after the splice loop. -/
def rgbAlignedNodata (s : RGBStyle) (nodata : List (Option ℚ)) : List (Option (Option ℚ)) :=
  spliceAlign ((rgbBandIndex s).map Option.isSome) nodata

/-- `refMatrix` of `RGB.apply`: the first present channel matrix, `[]` when
all three are missing (arrays are always truthy, `undefined` slots are not). -/
def rgbRefMatrix (s : RGBStyle) (matrices : List (List ℚ)) : List ℚ :=
  let al := rgbAligned s matrices
  (((al.getD 0 none).or (al.getD 1 none)).or (al.getD 2 none)).getD []

/-- The combined nodata test of one cell in `RGB.apply`:
`redNodata && greenNodata && blueNodata`. -/
def rgbCellNodata (s : RGBStyle) (matrices : List (List ℚ)) (nodata : List (Option ℚ))
    (i : ℕ) : Bool :=
  let al := rgbAligned s matrices
  let nd := rgbAlignedNodata s nodata
  rgbChannelNodata (al.getD 0 none) (nd.getD 0 none) i &&
    rgbChannelNodata (al.getD 1 none) (nd.getD 1 none) i &&
    rgbChannelNodata (al.getD 2 none) (nd.getD 2 none) i

/-- `RGB.apply(matrices, nodata, minAlpha, maxAlpha)`: one R,G,B,A group per
index of the reference (first present) matrix. -/
def rgbApply (s : RGBStyle) (matrices : List (List ℚ)) (nodata : List (Option ℚ))
    (minAlpha maxAlpha : ℚ) : List JNum :=
  let al := rgbAligned s matrices
  (List.range (rgbRefMatrix s matrices).length).flatMap fun i =>
    [rgbChannelByte (al.getD 0 none) s.red.min? s.red.max? i,
     rgbChannelByte (al.getD 1 none) s.green.min? s.green.max? i,
     rgbChannelByte (al.getD 2 none) s.blue.min? s.blue.max? i,
     num (if rgbCellNodata s matrices nodata i then maxAlpha else minAlpha)]

/-- `RGB.getChecksum()`: concatenation of the channel checksums. -/
def rgbGetChecksum (s : RGBStyle) : String :=
  "r" ++ monochromeGetChecksum s.red ++ "g" ++ monochromeGetChecksum s.green ++
    "b" ++ monochromeGetChecksum s.blue

/-! ## `ol/source/Coverage` — `getStyledBand` -/

/-- The shape of `style.getBandIndex()` seen by `getStyledBand`: an array for
RGB composites, otherwise a possibly-undefined single index. -/
inductive StyleBandIndex where
  | single (i : Option ℕ)
  | multi (idxs : List (Option ℕ))
deriving DecidableEq, Repr

/-- The gathering loop of `getStyledBand`'s multi-band branch: each defined
index pushes `bands[idx]` (and its null value); reading `getNullValue` of a
missing band throws a `TypeError`, modelled as an `Except.error`. -/
def gatherBands (bands : List Band) : List (Option ℕ) → Except String (List Band)
  | [] => .ok []
  | none :: rest => gatherBands bands rest
  | some i :: rest =>
    match bands.get? i with
    | none => .error "TypeError: cannot read properties of undefined"
    | some b => (gatherBands bands rest).map (b :: ·)

/-- `CoverageSource.getStyledBand(style, minAlpha, maxAlpha)`: multi-band
styles gather and align the referenced bands then apply the composite style;
single-band styles apply the style to `bands[bandIndex]` directly — throwing
(`Except.error`) when that band does not exist — and only an undefined band
index reaches the final `return null`.  The returned `Band` is modelled by
its styled interleaved matrix (its spatial metadata is copied from the source
band and is irrelevant here); `applySingle`/`applyMulti` stand for
`style.apply` with the alphas fixed, and `align` for the external
`alignRasterBands` collaborator. -/
def getStyledBand (bands : List Band) (bandIndex : StyleBandIndex)
    (applySingle : List ℚ → Option ℚ → List JNum)
    (applyMulti : List (List ℚ) → List (Option ℚ) → List JNum)
    (align : List Band → List (List ℚ)) : Except String (Option (List JNum)) :=
  match bandIndex with
  | .multi idxs =>
    (gatherBands bands idxs).map fun toAlign =>
      some (applyMulti (align toAlign) (toAlign.map (·.nullValue)))
  | .single none => .ok none
  | .single (some i) =>
    match bands.get? i with
    | none => .error "TypeError: cannot read properties of undefined"
    | some band => .ok (some (applySingle band.matrix band.nullValue))

/-! ## `ol/extent` helpers (leaf utilities from `ol/extent.js`) -/

/-- A rectangular extent `[minX, minY, maxX, maxY]`. -/
structure Extent where
  minX : ℚ
  minY : ℚ
  maxX : ℚ
  maxY : ℚ
deriving DecidableEq, Repr

/-- `containsExtent(extent1, extent2)`: `extent2` lies inside `extent1`. -/
def containsExtent (e1 e2 : Extent) : Bool :=
  e1.minX ≤ e2.minX && e2.maxX ≤ e1.maxX && e1.minY ≤ e2.minY && e2.maxY ≤ e1.maxY

/-- `intersects(extent1, extent2)`. -/
def intersectsExtent (e1 e2 : Extent) : Bool :=
  e1.minX ≤ e2.maxX && e1.maxX ≥ e2.minX && e1.minY ≤ e2.maxY && e1.maxY ≥ e2.minY

/-- `getWidth(extent)`. -/
def getWidth (e : Extent) : ℚ := e.maxX - e.minX

/-- `buffer(extent, value)`. -/
def bufferExtent (e : Extent) (v : ℚ) : Extent :=
  ⟨e.minX - v, e.minY - v, e.maxX + v, e.maxY + v⟩

/-! ## Coverage layer renderers — `prepareFrame`

The canvas and WebGL coverage layer renderers are embedded as pure state
transformers.  Collaborators that only produce opaque resources (the style
object, the spatial index built by `createGrid`, replay groups, the WebGL
tessellator) are represented by identifiers plus environment functions for
the behaviours the renderer observes; each call additionally reports a
`FrameEffects` record flagging which expensive operations it performed. -/

/-- `CoverageType` enum (`getType() || RECTANGULAR` applies the default). -/
inductive CoverageType where
  | rectangular
  | hexagonal
  | custom
deriving DecidableEq, Repr

/-- The per-frame view context consumed by `prepareFrame`. -/
structure FrameState where
  extent : Extent
  resolution : ℚ
  pixelRatio : ℚ
  animating : Bool
  interacting : Bool
  projExtent : Extent
  canWrapX : Bool
  viewProjection : ℕ
deriving DecidableEq, Repr

/-- The coverage layer configuration read by `prepareFrame`; the style is an
opaque token interpreted by the environment. -/
structure CoverageLayer where
  style : Option ℕ
  revision : ℕ
  updateWhileAnimating : Bool
  updateWhileInteracting : Bool
  stroke : Option ℚ
deriving DecidableEq, Repr

/-- What the renderer observes of a styled band: its cell resolution. -/
structure StyledBandInfo where
  resolution : ℚ × ℚ
deriving DecidableEq, Repr

/-- The coverage source as seen by `prepareFrame`; `styledBand` is the result
of `getStyledBand(style, 1, 0)`. -/
structure CoverageSourceView where
  revision : ℕ
  wrapX : Bool
  type? : Option CoverageType
  pattern : Option (List (ℚ × ℚ))
  projection : ℕ
  styledBand : Option StyledBandInfo
deriving DecidableEq, Repr

/-- Collaborator behaviours: style checksums, the style mutation performed by
`fillMissingValues`, whether a spatial-index query returns any cells, and the
WebGL cell tessellator. -/
structure RendererEnv where
  checksum : ℕ → String
  fillMissingValues : ℕ → ℕ
  queryNonEmpty : ℕ → Extent → Bool
  tessellate : List ℚ → List ℚ × List ℕ

/-- The mutable state of a coverage layer renderer across frames.  Opaque
resources (spatial index, replay group) are identified by numbers drawn from
`nextId`. -/
structure RendererState where
  renderedChecksum : Option String
  renderedSourceRevision : Option ℕ
  buffer : Option ℚ
  coverageCache : Option ℕ
  numVertices : Option ℕ
  indicesCache : List ℕ
  renderedResolution : Option ℚ
  renderedRevision : Option ℕ
  renderedExtent : Option Extent
  replayGroup : Option ℕ
  replayGroupChanged : Bool
  nextId : ℕ
deriving DecidableEq, Repr

/-- Which expensive operations a `prepareFrame` call performed. -/
structure FrameEffects where
  styledBandComputed : Bool
  gridRebuilt : Bool
  replayGroupCreated : Bool
  replayGroupDisposed : Bool
  strokeWidth : Option ℚ
deriving DecidableEq, Repr

/-- The no-effect record. -/
def noFX : FrameEffects := ⟨false, false, false, false, none⟩

/-- `Math.max` on two plain rationals (kernel-computable form). -/
def qmax (a b : ℚ) : ℚ := if a ≤ b then b else a

/-- `equivalent(projection1, projection2)` on our opaque projection ids. -/
def projEquivalent (p1 p2 : ℕ) : Bool := p1 = p2

/-- Canvas `getCellCoordinates_`: flat cell-corner coordinates relative to
the centroid (rectangle, flat-top hexagon, or the custom pattern's shape
scaled by the resolution). -/
def canvasCellCoordinates (type : CoverageType) (res : ℚ × ℚ)
    (pat : Option (List (ℚ × ℚ))) : List ℚ :=
  let halfX := res.1 / 2
  let halfY := res.2 / 2
  match type with
  | .hexagonal =>
    let fourthY := halfY / 2
    [-halfX, -fourthY, 0, -halfY, halfX, -fourthY, halfX, fourthY, 0, halfY, -halfX, fourthY]
  | .custom => (pat.getD []).flatMap fun p => [p.1 * res.1, p.2 * res.2]
  | .rectangular => [-halfX, -halfY, halfX, -halfY, halfX, halfY, -halfX, halfY]

/-- WebGL `getCellCoordinates_`: the cell's vertices plus its triangulation
indices; custom shapes go through the tessellator collaborator. -/
def webglCellCoordinates (env : RendererEnv) (type : CoverageType) (res : ℚ × ℚ)
    (pat : Option (List (ℚ × ℚ))) : List ℚ × List ℕ :=
  let halfX := res.1 / 2
  let halfY := res.2 / 2
  match type with
  | .hexagonal =>
    let fourthY := halfY / 2
    ([-halfX, -fourthY, 0, -halfY, halfX, -fourthY, halfX, fourthY, 0, halfY, -halfX, fourthY],
     [0, 1, 2, 2, 3, 0, 0, 3, 5, 5, 3, 4])
  | .custom => env.tessellate ((pat.getD []).flatMap fun p => [p.1 * res.1, p.2 * res.2])
  | .rectangular =>
    ([-halfX, -halfY, halfX, -halfY, halfX, halfY, -halfX, halfY], [0, 1, 2, 2, 3, 0])

/-- The canvas renderer's world-wrap adjustment of the frame extent: when the
source wraps horizontally, the projection can wrap, and the frame extent is
not contained in the projection extent, the x-range is widened to the
projection extent plus `max(frameWidth / 2, worldWidth)` on each side. -/
def canvasFrameExtent (source : CoverageSourceView) (fs : FrameState) : Extent :=
  if source.wrapX && fs.canWrapX && !containsExtent fs.projExtent fs.extent then
    let worldWidth := getWidth fs.projExtent
    let gutter := qmax (getWidth fs.extent / 2) worldWidth
    { fs.extent with minX := fs.projExtent.minX - gutter, maxX := fs.projExtent.maxX + gutter }
  else fs.extent

/-- The tail of the canvas `prepareFrame` after the conditional rebuild
block: query the spatial index over the buffered extent, bail out on an empty
result, otherwise compute the cosmetic stroke width, replay the coverage and
cache the frame parameters. -/
def canvasPrepareFrameTail (env : RendererEnv) (layer : CoverageLayer)
    (source : CoverageSourceView) (fs : FrameState) (extent : Extent)
    (type : CoverageType) (replayGroupId : ℕ) (st : RendererState) (fx : FrameEffects) :
    CoverageLayer × RendererState × Bool × FrameEffects :=
  let bufferedExtent := bufferExtent extent (st.buffer.getD 0)
  if !env.queryNonEmpty (st.coverageCache.getD 0) bufferedExtent then
    (layer, st, false, fx)
  else
    let strokeWidth :=
      match layer.stroke with
      | some w => w
      | none =>
        if type ≠ CoverageType.rectangular ||
            !projEquivalent source.projection fs.viewProjection then 1 else 0
    (layer,
     { st with
        renderedResolution := some fs.resolution,
        renderedRevision := some layer.revision,
        renderedExtent := some extent,
        replayGroup := some replayGroupId,
        replayGroupChanged := true },
     true,
     { fx with strokeWidth := some strokeWidth })

/-- `CanvasCoverageLayerRenderer.prepareFrame(frameState, layerState)` as a
pure state transformer, returning the (possibly style-mutated) layer, the new
renderer state, the boolean frame result, and the effects performed. -/
def canvasPrepareFrame (env : RendererEnv) (layer : CoverageLayer)
    (source : CoverageSourceView) (fs : FrameState) (st : RendererState) :
    CoverageLayer × RendererState × Bool × FrameEffects :=
  match layer.style with
  | none => (layer, st, false, noFX)
  | some style0 =>
    let style := if st.renderedChecksum ≠ some (env.checksum style0) then
        env.fillMissingValues style0 else style0
    let layer := { layer with style := some style }
    if (!layer.updateWhileAnimating && fs.animating) ||
        (!layer.updateWhileInteracting && fs.interacting) then
      (layer, st, true, noFX)
    else
      let extent := canvasFrameExtent source fs
      if st.renderedResolution = some fs.resolution &&
          st.renderedRevision = some layer.revision &&
          (match st.renderedExtent with
           | some re => containsExtent re extent
           | none => false) then
        (layer, { st with replayGroupChanged := false }, true, noFX)
      else
        let st := { st with replayGroup := none }
        let replayGroupId := st.nextId
        let st := { st with nextId := st.nextId + 1 }
        let fx := { noFX with replayGroupCreated := true }
        let type := source.type?.getD CoverageType.rectangular
        if st.renderedChecksum ≠ some (env.checksum style) ||
            st.renderedSourceRevision ≠ some source.revision then
          match source.styledBand with
          | none => (layer, st, false, { fx with styledBandComputed := true })
          | some sb =>
            let cellCoords := canvasCellCoordinates type sb.resolution source.pattern
            let cacheId := st.nextId
            let st := { st with
              renderedChecksum := some (env.checksum style),
              renderedSourceRevision := some source.revision,
              buffer := some (qmax sb.resolution.1 sb.resolution.2),
              coverageCache := some cacheId,
              numVertices := some cellCoords.length,
              nextId := st.nextId + 1 }
            canvasPrepareFrameTail env layer source fs extent type replayGroupId st
              { fx with styledBandComputed := true, gridRebuilt := true }
        else
          canvasPrepareFrameTail env layer source fs extent type replayGroupId st fx

/-- The tail of the WebGL `prepareFrame` after the conditional rebuild block:
dispose any previous replay group, query the spatial index, bail out on an
empty result, otherwise create the replay group, replay the coverage (with
the cached triangulation indices and no stroke) and cache the frame
parameters. -/
def webglPrepareFrameTail (env : RendererEnv) (layer : CoverageLayer)
    (fs : FrameState) (extent : Extent) (st : RendererState) (fx : FrameEffects) :
    CoverageLayer × RendererState × Bool × FrameEffects :=
  let disposed := st.replayGroup.isSome
  let st := { st with replayGroup := none }
  let fx := { fx with replayGroupDisposed := disposed }
  let bufferedExtent := bufferExtent extent (st.buffer.getD 0)
  if !env.queryNonEmpty (st.coverageCache.getD 0) bufferedExtent then
    (layer, st, false, fx)
  else
    let replayGroupId := st.nextId
    let st := { st with nextId := st.nextId + 1 }
    (layer,
     { st with
        renderedResolution := some fs.resolution,
        renderedRevision := some layer.revision,
        renderedExtent := some extent,
        replayGroup := some replayGroupId },
     true,
     { fx with replayGroupCreated := true })

/-- `WebGLCoverageLayerRenderer.prepareFrame(frameState, layerState, context)`
as a pure state transformer.  Unlike the canvas variant there is no
world-wrap extent widening, the replay group is created only after a
successful index query, and `replayGroupChanged` is only written by the
cached early exit. -/
def webglPrepareFrame (env : RendererEnv) (layer : CoverageLayer)
    (source : CoverageSourceView) (fs : FrameState) (st : RendererState) :
    CoverageLayer × RendererState × Bool × FrameEffects :=
  match layer.style with
  | none => (layer, st, false, noFX)
  | some style0 =>
    let style := if st.renderedChecksum ≠ some (env.checksum style0) then
        env.fillMissingValues style0 else style0
    let layer := { layer with style := some style }
    if (!layer.updateWhileAnimating && fs.animating) ||
        (!layer.updateWhileInteracting && fs.interacting) then
      (layer, st, true, noFX)
    else
      let extent := fs.extent
      if st.renderedResolution = some fs.resolution &&
          st.renderedRevision = some layer.revision &&
          (match st.renderedExtent with
           | some re => containsExtent re extent
           | none => false) then
        (layer, { st with replayGroupChanged := false }, true, noFX)
      else
        let type := source.type?.getD CoverageType.rectangular
        if st.renderedChecksum ≠ some (env.checksum style) ||
            st.renderedSourceRevision ≠ some source.revision then
          match source.styledBand with
          | none => (layer, st, false, { noFX with styledBandComputed := true })
          | some sb =>
            let cell := webglCellCoordinates env type sb.resolution source.pattern
            let cacheId := st.nextId
            let st := { st with
              renderedChecksum := some (env.checksum style),
              renderedSourceRevision := some source.revision,
              buffer := some (qmax sb.resolution.1 sb.resolution.2),
              coverageCache := some cacheId,
              numVertices := some cell.1.length,
              indicesCache := cell.2,
              nextId := st.nextId + 1 }
            webglPrepareFrameTail env layer fs extent st
              { noFX with styledBandComputed := true, gridRebuilt := true }
        else
          webglPrepareFrameTail env layer fs extent st noFX

/-! ## `ol/render/webgl/PolygonReplay` — `drawHitDetectionReplayOneByOne`

The accumulated batch state (`startIndices`, `startIndicesFeature`,
`styleIndices_`) and the call's parameters (skip set, geometry presence,
feature extents, hit extent, feature callback) are collected in `HDEnv`.
Features are identified by their uid; GL calls (`setFillStyle_`, `clear`,
`drawElements`) have no bearing on the visit order or the return value, but
the sequence of features on which the callback is invoked is returned as a
trace alongside the result. -/

/-- The batch state and call parameters of `drawHitDetectionReplayOneByOne`. -/
structure HDEnv where
  startIndices : List ℕ
  features : List ℕ
  styleIndices : List ℕ
  skipped : ℕ → Bool
  hasGeom : ℕ → Bool
  featExtent : ℕ → Extent
  hitExtent : Option Extent
  callback : ℕ → Option ℕ

/-- The visit condition of one feature: not in the skip set, has a geometry,
and (when a hit extent is supplied) its extent intersects it. -/
def hdCond (env : HDEnv) (f : ℕ) : Bool :=
  !env.skipped f && env.hasGeom f &&
    (match env.hitExtent with
     | none => true
     | some e => intersectsExtent e (env.featExtent f))

/-- The inner `while` of `drawHitDetectionReplayOneByOne` for one style
group: `fiSucc` is `featureIndex + 1` (so `0` encodes `featureIndex = -1`).
While `featureIndex >= 0 && startIndices[featureIndex] >= groupStart`, the
feature is visited (callback invoked when the visit condition holds, the
result returned immediately when truthy), then `featureIndex--` and
`end = start`.  Returns the callback result (if any), the final `fiSucc` and
`end`, and the accumulated callback trace. -/
def hdInner (env : HDEnv) (groupStart : ℕ) :
    ℕ → ℕ → List ℕ → Option ℕ × ℕ × ℕ × List ℕ
  | 0, endIdx, tr => (none, 0, endIdx, tr)
  | fi + 1, endIdx, tr =>
    if env.startIndices[fi]?.getD 0 ≥ groupStart then
      let start := env.startIndices[fi]?.getD 0
      let f := env.features[fi]?.getD 0
      if hdCond env f then
        match env.callback f with
        | some r => (some r, fi + 1, endIdx, tr ++ [f])
        | none => hdInner env groupStart fi start (tr ++ [f])
      else hdInner env groupStart fi start tr
    else (none, fi + 1, endIdx, tr)

/-- The outer `for` of `drawHitDetectionReplayOneByOne`, iterating the style
groups in reverse insertion order and threading `featureIndex`/`end` through
the inner loops; a truthy callback result is returned immediately. -/
def hdOuter (env : HDEnv) : List ℕ → ℕ → ℕ → List ℕ → Option ℕ × List ℕ
  | [], _, _, tr => (none, tr)
  | g :: gs, fiSucc, endIdx, tr =>
    match hdInner env g fiSucc endIdx tr with
    | (some r, _, _, tr2) => (some r, tr2)
    | (none, fiSucc2, endIdx2, tr2) => hdOuter env gs fiSucc2 endIdx2 tr2

/-- `drawHitDetectionReplayOneByOne(gl, context, skippedFeaturesHash,
featureCallback, opt_hitExtent)`: start from
`featureIndex = startIndices.length - 2`,
`end = startIndices[featureIndex + 1]`, and run the style groups from last to
first; the result is the first truthy callback value (else `undefined`), and
the trace lists the features the callback was invoked on, in order. -/
def drawHitDetectionReplayOneByOne (env : HDEnv) : Option ℕ × List ℕ :=
  let fiSucc := env.startIndices.length - 1
  let endIdx := env.startIndices[fiSucc]?.getD 0
  hdOuter env env.styleIndices.reverse fiSucc endIdx []

/-- The pure descending sweep the hit-detection loop performs once group
starts no longer cut it short: visit features `fi - 1, fi - 2, …, 0`,
invoking the callback on eligible ones and stopping at the first truthy
result. -/
def hdSweep (env : HDEnv) : ℕ → List ℕ → Option ℕ × List ℕ
  | 0, tr => (none, tr)
  | fi + 1, tr =>
    let f := env.features[fi]?.getD 0
    if hdCond env f then
      match env.callback f with
      | some r => (some r, tr ++ [f])
      | none => hdSweep env fi (tr ++ [f])
    else hdSweep env fi tr

/-- The eligible features among indices `fi - 1, …, 0` in reverse drawing
order: the non-skipped features with a geometry passing the extent
pre-filter. -/
def hdEligible (env : HDEnv) (fi : ℕ) : List ℕ :=
  ((List.range fi).reverse.map fun i => env.features[i]?.getD 0).filter (hdCond env)

/-! ## Layout helper lemmas -/

/-- A `flatMap` whose blocks all have length `k` has length `k * n`. -/
theorem length_flatMap_const {α β : Type} (f : α → List β) (k : ℕ) :
    ∀ l : List α, (∀ x ∈ l, (f x).length = k) → (l.flatMap f).length = k * l.length
  | [], _ => by simp
  | a :: l, h => by
    simp only [List.flatMap_cons, List.length_append, List.length_cons]
    rw [h a (List.mem_cons_self a l),
      length_flatMap_const f k l (fun x hx => h x (List.mem_cons_of_mem a hx))]
    ring

/-- In a `flatMap` with constant block length `k`, the `i`-th block is the
image of the `i`-th element. -/
theorem flatMap_block {α β : Type} (f : α → List β) (k : ℕ) :
    ∀ (l : List α) (i : ℕ) (hi : i < l.length), (∀ x ∈ l, (f x).length = k) →
      ((l.flatMap f).drop (k * i)).take k = f (l.get ⟨i, hi⟩)
  | a :: l, 0, _, h => by
    simp only [List.flatMap_cons, Nat.mul_zero, List.drop_zero, List.get]
    rw [show k = (f a).length from (h a (List.mem_cons_self a l)).symm]
    exact List.take_left (f a) (l.flatMap f)
  | a :: l, i + 1, hi, h => by
    simp only [List.flatMap_cons, List.get]
    have hlen : (f a).length = k := h a (List.mem_cons_self a l)
    have hsplit : k * (i + 1) = (f a).length + k * i := by rw [hlen]; ring
    rw [hsplit, ← List.drop_drop, List.drop_left]
    exact flatMap_block f k l i (by simpa using hi)
      (fun x hx => h x (List.mem_cons_of_mem a hx))

/-- Single-element version of `flatMap_block`. -/
theorem flatMap_getElem {α β : Type} (f : α → List β) (k : ℕ) (l : List α)
    (h : ∀ x ∈ l, (f x).length = k) (i j : ℕ) (hi : i < l.length) (hj : j < k) :
    (l.flatMap f)[k * i + j]? = (f (l.get ⟨i, hi⟩))[j]? := by
  rw [← List.getElem?_drop, ← List.getElem?_take_of_lt hj, flatMap_block f k l i hi h]

/-- The interval chain built by `intervalsLoop` always contains an interval
whose higher endpoint is `[max, endColor]` (the final push). -/
theorem intervalsLoop_mem_max (mx : JNum) (e : Color) (mn : JNum) :
    ∀ (prev : JNum × Color) (bps : List Breakpoint),
      ∃ itv ∈ intervalsLoop mx e mn prev bps, itv.higher = (mx, e)
  | _, [] => ⟨_, List.mem_singleton_self _, rfl⟩
  | prev, p :: rest => by
    unfold intervalsLoop
    split
    · obtain ⟨itv, hm, he⟩ := intervalsLoop_mem_max mx e mn (num p.1, p.2) rest
      exact ⟨itv, List.mem_cons_of_mem _ hm, he⟩
    · exact intervalsLoop_mem_max mx e mn prev rest

/-- For finite numeric bounds, `pseudoCellColors` always pushes exactly three
color bytes: out-of-range values take the black/white branch, and in-range
values always find an interval because the last interval's higher endpoint is
`max` itself. -/
theorem pseudoCellColors_length (qm qM : ℚ) (categorized : Bool)
    (intervals : List PInterval) (v : ℚ)
    (hmem : ∃ itv ∈ intervals, itv.higher.1 = num qM) :
    (pseudoCellColors (num qm) (num qM) categorized intervals v).length = 3 := by
  unfold pseudoCellColors
  split
  · simp
  · rename_i hout
    have hle : v ≤ qM := by
      simp only [Bool.or_eq_true, not_or] at hout
      have := hout.2
      simp only [jlt, decide_eq_true_eq] at this
      exact le_of_not_lt this
    obtain ⟨itv, hm, he⟩ := hmem
    have hfind : (intervals.find? (fun itv => jle (num v) itv.higher.1)).isSome := by
      rw [List.find?_isSome]
      refine ⟨itv, hm, ?_⟩
      rw [he]
      simpa [jle] using hle
    obtain ⟨itv2, hfound⟩ := Option.isSome_iff_exists.mp hfind
    rw [hfound]
    split
    · rename_i heq
      exact absurd heq (by simp)
    · split <;> simp

/-- For finite numeric bounds, every cell of `Pseudocolor.apply` pushes
exactly four bytes. -/
theorem pseudoCell_length (qm qM : ℚ) (categorized : Bool)
    (intervals : List PInterval) (nodata : Option ℚ) (minA maxA : ℚ) (v : ℚ)
    (hmem : ∃ itv ∈ intervals, itv.higher.1 = num qM) :
    (pseudoCell (num qm) (num qM) categorized intervals nodata minA maxA v).length = 4 := by
  unfold pseudoCell
  rw [List.length_append, pseudoCellColors_length qm qM categorized intervals v hmem]
  rfl

/-! ## Claim C10 — output length and R,G,B,A layout of `apply` -/

/-- C10: for every style engine (Monochrome, Pseudocolor with defined
`min ≤ max`, RGB) and every input matrix of finite numeric values, `apply`
returns exactly 4 bytes per input cell — for RGB per cell of the first
present channel matrix — laid out as one R,G,B,A quadruple per cell in input
order. -/
theorem c10_apply_layout :
    (∀ (s : Monochrome) (matrix : List ℚ) (nodata : Option ℚ) (minA maxA : ℚ),
      (monochromeApply s matrix nodata minA maxA).length = 4 * matrix.length ∧
      ∀ (i : ℕ) (hi : i < matrix.length),
        ((monochromeApply s matrix nodata minA maxA).drop (4 * i)).take 4 =
          monoCell (effMin s.min?) (effMax s.max?) nodata minA maxA (matrix.get ⟨i, hi⟩)) ∧
    (∀ (s : Pseudocolor) (qm qM : ℚ), s.min? = some (num qm) → s.max? = some (num qM) →
      qm ≤ qM →
      ∀ (matrix : List ℚ) (nodata : Option ℚ) (minA maxA : ℚ),
        (pseudocolorApply s matrix nodata minA maxA).length = 4 * matrix.length ∧
        ∀ (i : ℕ) (hi : i < matrix.length),
          ((pseudocolorApply s matrix nodata minA maxA).drop (4 * i)).take 4 =
            pseudoCell (num qm) (num qM) (s.mode = PseudocolorMode.categorized)
              (createIntervals s (num qm) (num qM)) nodata minA maxA (matrix.get ⟨i, hi⟩)) ∧
    (∀ (s : RGBStyle) (matrices : List (List ℚ)) (nodata : List (Option ℚ)) (minA maxA : ℚ),
      (rgbApply s matrices nodata minA maxA).length = 4 * (rgbRefMatrix s matrices).length ∧
      ∀ (i : ℕ), i < (rgbRefMatrix s matrices).length →
        ((rgbApply s matrices nodata minA maxA).drop (4 * i)).take 4 =
          [rgbChannelByte ((rgbAligned s matrices).getD 0 none) s.red.min? s.red.max? i,
           rgbChannelByte ((rgbAligned s matrices).getD 1 none) s.green.min? s.green.max? i,
           rgbChannelByte ((rgbAligned s matrices).getD 2 none) s.blue.min? s.blue.max? i,
           num (if rgbCellNodata s matrices nodata i then maxA else minA)]) := by
  refine ⟨?_, ?_, ?_⟩
  · intro s matrix nodata minA maxA
    have hlen : ∀ v ∈ matrix,
        (monoCell (effMin s.min?) (effMax s.max?) nodata minA maxA v).length = 4 :=
      fun _ _ => rfl
    constructor
    · exact length_flatMap_const _ 4 matrix hlen
    · intro i hi
      exact flatMap_block _ 4 matrix i hi hlen
  · intro s qm qM hmin hmax _ matrix nodata minA maxA
    obtain ⟨itv, hm, he⟩ := intervalsLoop_mem_max (num qM) s.endColor (num qm)
      (num qm, s.startColor) (stableSortBps s.breakpoints)
    have hmem : ∃ itv ∈ createIntervals s (num qm) (num qM), itv.higher.1 = num qM :=
      ⟨itv, hm, by rw [he]⟩
    have happly : pseudocolorApply s matrix nodata minA maxA =
        matrix.flatMap (pseudoCell (num qm) (num qM)
          (s.mode = PseudocolorMode.categorized)
          (createIntervals s (num qm) (num qM)) nodata minA maxA) := by
      simp [pseudocolorApply, hmin, hmax, effMin, effMax]
    rw [happly]
    constructor
    · exact length_flatMap_const _ 4 matrix
        (fun v _ => pseudoCell_length qm qM _ _ nodata minA maxA v hmem)
    · intro i hi
      exact flatMap_block _ 4 matrix i hi
        (fun v _ => pseudoCell_length qm qM _ _ nodata minA maxA v hmem)
  · intro s matrices nodata minA maxA
    have hlen : ∀ j ∈ List.range (rgbRefMatrix s matrices).length,
        ([rgbChannelByte ((rgbAligned s matrices).getD 0 none) s.red.min? s.red.max? j,
          rgbChannelByte ((rgbAligned s matrices).getD 1 none) s.green.min? s.green.max? j,
          rgbChannelByte ((rgbAligned s matrices).getD 2 none) s.blue.min? s.blue.max? j,
          num (if rgbCellNodata s matrices nodata j then maxA else minA)] :
            List JNum).length = 4 :=
      fun _ _ => rfl
    constructor
    · rw [rgbApply, length_flatMap_const _ 4 _ hlen, List.length_range]
    · intro i hi
      have hi2 : i < (List.range (rgbRefMatrix s matrices).length).length := by
        simpa using hi
      have := flatMap_block
        (fun i =>
          [rgbChannelByte ((rgbAligned s matrices).getD 0 none) s.red.min? s.red.max? i,
           rgbChannelByte ((rgbAligned s matrices).getD 1 none) s.green.min? s.green.max? i,
           rgbChannelByte ((rgbAligned s matrices).getD 2 none) s.blue.min? s.blue.max? i,
           num (if rgbCellNodata s matrices nodata i then maxA else minA)])
        4 (List.range (rgbRefMatrix s matrices).length) i hi2 hlen
      rw [rgbApply]
      simpa [List.getElem_range] using this

/-- Witness for C10 at a concrete instance: a two-cell matrix for each
engine. -/
theorem c10_apply_layout_witness :
    (pseudocolorApply
        ⟨some (num 0), some (num 10), some 0, ⟨0, 0, 0, 1⟩, ⟨255, 255, 255, 1⟩,
          PseudocolorMode.interpolate, []⟩
        [2, 8] none 1 0).length = 4 * 2 ∧
    (monochromeApply ⟨some (num 0), some (num 10), some 0⟩ [2, 8] none 1 0).length = 4 * 2 := by
  constructor
  · exact (c10_apply_layout.2.1
      ⟨some (num 0), some (num 10), some 0, ⟨0, 0, 0, 1⟩, ⟨255, 255, 255, 1⟩,
        PseudocolorMode.interpolate, []⟩
      0 10 rfl rfl (by norm_num) [2, 8] none 1 0).1
  · exact (c10_apply_layout.1 ⟨some (num 0), some (num 10), some 0⟩ [2, 8] none 1 0).1

/-! ## Claim C6 — Pseudocolor out-of-range clamping to black/white -/

/-- The color bytes of one cell as a `take 3` of the styled output block. -/
theorem pseudo_block_colors (s : Pseudocolor) (qm qM : ℚ)
    (hmin : s.min? = some (num qm)) (hmax : s.max? = some (num qM))
    (matrix : List ℚ) (nodata : Option ℚ) (minA maxA : ℚ) (i : ℕ)
    (hi : i < matrix.length) :
    ((pseudocolorApply s matrix nodata minA maxA).drop (4 * i)).take 3 =
      pseudoCellColors (num qm) (num qM) (s.mode = PseudocolorMode.categorized)
        (createIntervals s (num qm) (num qM)) (matrix.get ⟨i, hi⟩) := by
  obtain ⟨itv, hm, he⟩ := intervalsLoop_mem_max (num qM) s.endColor (num qm)
    (num qm, s.startColor) (stableSortBps s.breakpoints)
  have hmem : ∃ itv ∈ createIntervals s (num qm) (num qM), itv.higher.1 = num qM :=
    ⟨itv, hm, by rw [he]⟩
  have happly : pseudocolorApply s matrix nodata minA maxA =
      matrix.flatMap (pseudoCell (num qm) (num qM)
        (s.mode = PseudocolorMode.categorized)
        (createIntervals s (num qm) (num qM)) nodata minA maxA) := by
    simp [pseudocolorApply, hmin, hmax, effMin, effMax]
  have hblock := flatMap_block
    (pseudoCell (num qm) (num qM) (decide (s.mode = PseudocolorMode.categorized))
      (createIntervals s (num qm) (num qM)) nodata minA maxA) 4 matrix i hi
    (fun v _ => pseudoCell_length qm qM _ _ nodata minA maxA v hmem)
  have htake : ((pseudocolorApply s matrix nodata minA maxA).drop (4 * i)).take 3 =
      (((pseudocolorApply s matrix nodata minA maxA).drop (4 * i)).take 4).take 3 := by
    rw [List.take_take]
    norm_num
  rw [htake, happly, hblock]
  have hcl := pseudoCellColors_length qm qM (s.mode = PseudocolorMode.categorized)
    (createIntervals s (num qm) (num qM)) (matrix.get ⟨i, hi⟩) hmem
  unfold pseudoCell
  rw [show (3 : ℕ) = (pseudoCellColors (num qm) (num qM)
      (s.mode = PseudocolorMode.categorized)
      (createIntervals s (num qm) (num qM)) (matrix.get ⟨i, hi⟩)).length from hcl.symm,
    List.take_left]

/-- C6: for every Pseudocolor style with defined numeric bounds `min ≤ max`,
a cell value strictly below `min` is styled pure black `(0,0,0)` and one
strictly above `max` pure white `(255,255,255)`, regardless of the style's
start and end colors, mode and breakpoints. -/
theorem c6_pseudocolor_out_of_range (s : Pseudocolor) (qm qM : ℚ)
    (hmin : s.min? = some (num qm)) (hmax : s.max? = some (num qM)) (hmm : qm ≤ qM)
    (matrix : List ℚ) (nodata : Option ℚ) (minA maxA : ℚ) (i : ℕ)
    (hi : i < matrix.length) :
    (matrix.get ⟨i, hi⟩ < qm →
      ((pseudocolorApply s matrix nodata minA maxA).drop (4 * i)).take 3 =
        [num 0, num 0, num 0]) ∧
    (qM < matrix.get ⟨i, hi⟩ →
      ((pseudocolorApply s matrix nodata minA maxA).drop (4 * i)).take 3 =
        [num 255, num 255, num 255]) := by
  rw [pseudo_block_colors s qm qM hmin hmax matrix nodata minA maxA i hi]
  constructor
  · intro hv
    rw [List.get_eq_getElem] at hv
    simp [pseudoCellColors, jlt, hv]
  · intro hv
    have hnotlt : ¬(matrix.get ⟨i, hi⟩ < qm) := not_lt.mpr (le_trans hmm (le_of_lt hv))
    rw [List.get_eq_getElem] at hv hnotlt
    simp [pseudoCellColors, jlt, hv, hnotlt]

/-- Witness for C6: min 10, max 20, cells 5 (below) and 25 (above). -/
theorem c6_pseudocolor_out_of_range_witness :
    ((pseudocolorApply
        ⟨some (num 10), some (num 20), some 0, ⟨7, 7, 7, 1⟩, ⟨9, 9, 9, 1⟩,
          PseudocolorMode.interpolate, []⟩ [5, 25] none 1 0).drop 0).take 3 =
      [num 0, num 0, num 0] ∧
    ((pseudocolorApply
        ⟨some (num 10), some (num 20), some 0, ⟨7, 7, 7, 1⟩, ⟨9, 9, 9, 1⟩,
          PseudocolorMode.interpolate, []⟩ [5, 25] none 1 0).drop 4).take 3 =
      [num 255, num 255, num 255] := by
  constructor
  · exact (c6_pseudocolor_out_of_range
      ⟨some (num 10), some (num 20), some 0, ⟨7, 7, 7, 1⟩, ⟨9, 9, 9, 1⟩,
        PseudocolorMode.interpolate, []⟩ 10 20 rfl rfl (by norm_num)
      [5, 25] none 1 0 0 (by norm_num)).1 (by norm_num)
  · exact (c6_pseudocolor_out_of_range
      ⟨some (num 10), some (num 20), some 0, ⟨7, 7, 7, 1⟩, ⟨9, 9, 9, 1⟩,
        PseudocolorMode.interpolate, []⟩ 10 20 rfl rfl (by norm_num)
      [5, 25] none 1 0 1 (by norm_num)).2 (by norm_num)

/-! ## Claim C1 — the inverted alpha convention -/

/-- C1: for every style engine, every matrix, nodata value and alpha pair,
the alpha byte written for a cell is `maxAlpha` exactly when the cell equals
the nodata value (for RGB, when every channel is nodata per its contract:
missing channels count as nodata, present ones compare strictly to their own
nodata value), and `minAlpha` otherwise; the "equals maxAlpha iff nodata"
reading additionally needs `minAlpha ≠ maxAlpha`.  For Pseudocolor the alpha
byte is stated both per emitted cell group (unconditionally) and positionally
for defined numeric bounds. -/
theorem c1_alpha_convention :
    (∀ (s : Monochrome) (matrix : List ℚ) (nodata : Option ℚ) (minA maxA : ℚ)
       (i : ℕ) (hi : i < matrix.length),
      (monochromeApply s matrix nodata minA maxA)[4 * i + 3]? =
        some (num (if jsEqNodata (matrix.get ⟨i, hi⟩) nodata then maxA else minA)) ∧
      (minA ≠ maxA →
        ((monochromeApply s matrix nodata minA maxA)[4 * i + 3]? = some (num maxA) ↔
          jsEqNodata (matrix.get ⟨i, hi⟩) nodata = true))) ∧
    (∀ (mn mx : JNum) (categorized : Bool) (intervals : List PInterval)
       (nodata : Option ℚ) (minA maxA : ℚ) (v : ℚ),
      (pseudoCell mn mx categorized intervals nodata minA maxA v).getLast? =
        some (num (if jsEqNodata v nodata then maxA else minA))) ∧
    (∀ (s : Pseudocolor) (qm qM : ℚ), s.min? = some (num qm) → s.max? = some (num qM) →
      ∀ (matrix : List ℚ) (nodata : Option ℚ) (minA maxA : ℚ) (i : ℕ)
        (hi : i < matrix.length),
      (pseudocolorApply s matrix nodata minA maxA)[4 * i + 3]? =
        some (num (if jsEqNodata (matrix.get ⟨i, hi⟩) nodata then maxA else minA)) ∧
      (minA ≠ maxA →
        ((pseudocolorApply s matrix nodata minA maxA)[4 * i + 3]? = some (num maxA) ↔
          jsEqNodata (matrix.get ⟨i, hi⟩) nodata = true))) ∧
    (∀ (s : RGBStyle) (matrices : List (List ℚ)) (nodata : List (Option ℚ))
       (minA maxA : ℚ) (i : ℕ), i < (rgbRefMatrix s matrices).length →
      (rgbApply s matrices nodata minA maxA)[4 * i + 3]? =
        some (num (if rgbCellNodata s matrices nodata i then maxA else minA)) ∧
      (minA ≠ maxA →
        ((rgbApply s matrices nodata minA maxA)[4 * i + 3]? = some (num maxA) ↔
          rgbCellNodata s matrices nodata i = true))) := by
  have hiff : ∀ (out : List JNum) (k : ℕ) (b : Bool) (minA maxA : ℚ),
      out[k]? = some (num (if b then maxA else minA)) → minA ≠ maxA →
      (out[k]? = some (num maxA) ↔ b = true) := by
    intro out k b minA maxA h hne
    rw [h]
    cases b with
    | true => simp
    | false => simp [hne]
  refine ⟨?_, ?_, ?_, ?_⟩
  · intro s matrix nodata minA maxA i hi
    have hlen : ∀ v ∈ matrix,
        (monoCell (effMin s.min?) (effMax s.max?) nodata minA maxA v).length = 4 :=
      fun _ _ => rfl
    have h := flatMap_getElem
      (monoCell (effMin s.min?) (effMax s.max?) nodata minA maxA) 4 matrix hlen i 3 hi
      (by norm_num)
    have halpha : (monochromeApply s matrix nodata minA maxA)[4 * i + 3]? =
        some (num (if jsEqNodata (matrix.get ⟨i, hi⟩) nodata then maxA else minA)) := by
      rw [monochromeApply, h]
      rfl
    exact ⟨halpha, hiff _ _ _ _ _ halpha⟩
  · intro mn mx categorized intervals nodata minA maxA v
    unfold pseudoCell
    exact List.getLast?_concat _
  · intro s qm qM hmin hmax matrix nodata minA maxA i hi
    obtain ⟨itv, hm, he⟩ := intervalsLoop_mem_max (num qM) s.endColor (num qm)
      (num qm, s.startColor) (stableSortBps s.breakpoints)
    have hmem : ∃ itv ∈ createIntervals s (num qm) (num qM), itv.higher.1 = num qM :=
      ⟨itv, hm, by rw [he]⟩
    have happly : pseudocolorApply s matrix nodata minA maxA =
        matrix.flatMap (pseudoCell (num qm) (num qM)
          (decide (s.mode = PseudocolorMode.categorized))
          (createIntervals s (num qm) (num qM)) nodata minA maxA) := by
      simp [pseudocolorApply, hmin, hmax, effMin, effMax]
    have h := flatMap_getElem
      (pseudoCell (num qm) (num qM) (decide (s.mode = PseudocolorMode.categorized))
        (createIntervals s (num qm) (num qM)) nodata minA maxA) 4 matrix
      (fun v _ => pseudoCell_length qm qM _ _ nodata minA maxA v hmem) i 3 hi
      (by norm_num)
    have hcl := pseudoCellColors_length qm qM
      (decide (s.mode = PseudocolorMode.categorized))
      (createIntervals s (num qm) (num qM)) (matrix.get ⟨i, hi⟩) hmem
    have halpha : (pseudocolorApply s matrix nodata minA maxA)[4 * i + 3]? =
        some (num (if jsEqNodata (matrix.get ⟨i, hi⟩) nodata then maxA else minA)) := by
      rw [happly, h]
      unfold pseudoCell
      rw [List.getElem?_append_right (by rw [hcl])]
      rw [hcl]
      rfl
    exact ⟨halpha, hiff _ _ _ _ _ halpha⟩
  · intro s matrices nodata minA maxA i hi
    have hlen : ∀ j ∈ List.range (rgbRefMatrix s matrices).length,
        ([rgbChannelByte ((rgbAligned s matrices).getD 0 none) s.red.min? s.red.max? j,
          rgbChannelByte ((rgbAligned s matrices).getD 1 none) s.green.min? s.green.max? j,
          rgbChannelByte ((rgbAligned s matrices).getD 2 none) s.blue.min? s.blue.max? j,
          num (if rgbCellNodata s matrices nodata j then maxA else minA)] :
            List JNum).length = 4 :=
      fun _ _ => rfl
    have hi2 : i < (List.range (rgbRefMatrix s matrices).length).length := by
      simpa using hi
    have h := flatMap_getElem _ 4 (List.range (rgbRefMatrix s matrices).length) hlen i 3
      hi2 (by norm_num)
    have halpha : (rgbApply s matrices nodata minA maxA)[4 * i + 3]? =
        some (num (if rgbCellNodata s matrices nodata i then maxA else minA)) := by
      rw [rgbApply, h]
      simp [List.getElem_range]
    exact ⟨halpha, hiff _ _ _ _ _ halpha⟩

/-- Witness for C1: a 2-cell matrix with nodata `-9999` in cell 1, alphas
`(1, 0)` as passed by the renderers. -/
theorem c1_alpha_convention_witness :
    (monochromeApply ⟨some (num 0), some (num 10), some 0⟩ [5, -9999] (some (-9999)) 1 0)[4 * 1 + 3]? =
      some (num 0) ∧
    ((monochromeApply ⟨some (num 0), some (num 10), some 0⟩ [5, -9999] (some (-9999)) 1 0)[4 * 0 + 3]? =
        some (num 0) ↔ jsEqNodata 5 (some (-9999)) = true) ∧
    (pseudoCell (num 0) (num 10) false [] (some (-9999)) 1 0 (-9999)).getLast? = some (num 0) ∧
    (rgbApply ⟨⟨some (num 0), some (num 10), some 0⟩, ⟨some (num 0), some (num 10), some 1⟩,
        ⟨some (num 0), some (num 10), some 2⟩⟩ [[5], [5], [5]]
        [some 5, some 5, some 5] 1 0)[4 * 0 + 3]? = some (num 0) := by
  refine ⟨?_, ?_, ?_, ?_⟩
  · have h := (c1_alpha_convention.1 ⟨some (num 0), some (num 10), some 0⟩ [5, -9999]
      (some (-9999)) 1 0 1 (by norm_num)).1
    simpa using h
  · have h := (c1_alpha_convention.1 ⟨some (num 0), some (num 10), some 0⟩ [5, -9999]
      (some (-9999)) 1 0 0 (by norm_num)).2 (by norm_num)
    simpa using h
  · have h := c1_alpha_convention.2.1 (num 0) (num 10) false [] (some (-9999)) 1 0 (-9999)
    simpa using h
  · have h := (c1_alpha_convention.2.2.2 ⟨⟨some (num 0), some (num 10), some 0⟩,
      ⟨some (num 0), some (num 10), some 1⟩, ⟨some (num 0), some (num 10), some 2⟩⟩
      [[5], [5], [5]] [some 5, some 5, some 5] 1 0 0 (by decide)).1
    simpa using h

/-! ## Claim C7 — breakpoint insertion-order invariance -/

/-- C7: `Pseudocolor.apply` with breakpoints in arbitrary insertion order
produces the same output as with the breakpoints pre-sorted ascending by
value (stably): `createIntervals_` stable-sorts before building intervals,
and stable-sorting is idempotent. -/
theorem c7_breakpoint_order_invariance (s : Pseudocolor) (matrix : List ℚ)
    (nodata : Option ℚ) (minAlpha maxAlpha : ℚ) :
    pseudocolorApply s matrix nodata minAlpha maxAlpha =
      pseudocolorApply { s with breakpoints := stableSortBps s.breakpoints }
        matrix nodata minAlpha maxAlpha := by
  have hsort : stableSortBps (stableSortBps s.breakpoints) = stableSortBps s.breakpoints :=
    (List.sorted_insertionSort bpLe s.breakpoints).insertionSort_eq
  simp only [pseudocolorApply, createIntervals, stableSortBps] at hsort ⊢
  rw [hsort]

/-! ## Claim C2 — checksum uniqueness (refuted by `Pseudocolor.getChecksum`) -/

/-- C2 is false on the code: because `Pseudocolor.getChecksum`'s concatenation
is swallowed by a mis-parenthesized conditional, two Pseudocolor styles that
differ only in `max` (10 vs 20) — band 0, min 0, interpolate mode, default
colors, no breakpoints — produce the same checksum, while the claim requires
different checksums. -/
theorem c2_pseudocolor_checksum_ignores_max :
    (⟨some (num 0), some (num 10), some 0, ⟨0, 0, 0, 1⟩, ⟨255, 255, 255, 1⟩,
        PseudocolorMode.interpolate, []⟩ : Pseudocolor).max? ≠
      (⟨some (num 0), some (num 20), some 0, ⟨0, 0, 0, 1⟩, ⟨255, 255, 255, 1⟩,
        PseudocolorMode.interpolate, []⟩ : Pseudocolor).max? ∧
    pseudocolorGetChecksum
        ⟨some (num 0), some (num 10), some 0, ⟨0, 0, 0, 1⟩, ⟨255, 255, 255, 1⟩,
          PseudocolorMode.interpolate, []⟩ =
      pseudocolorGetChecksum
        ⟨some (num 0), some (num 20), some 0, ⟨0, 0, 0, 1⟩, ⟨255, 255, 255, 1⟩,
          PseudocolorMode.interpolate, []⟩ := by
  exact ⟨by decide, rfl⟩

/-! ## Claim C8 — `fillMissingValues` on styles with both bounds set -/

/-- C8, amended: when both bounds are set to JavaScript-truthy values
(nonzero, non-NaN), `fillMissingValues` leaves the style — and hence its
checksum — unchanged, for both Monochrome and Pseudocolor. -/
theorem c8_fill_preserves_truthy_bounds :
    (∀ (s : Monochrome) (bands : List Band) (j1 j2 : JNum),
      s.min? = some j1 → jTruthy j1 = true → s.max? = some j2 → jTruthy j2 = true →
      monochromeFillMissingValues s bands = s ∧
      monochromeGetChecksum (monochromeFillMissingValues s bands) =
        monochromeGetChecksum s) ∧
    (∀ (s : Pseudocolor) (bands : List Band) (j1 j2 : JNum),
      s.min? = some j1 → jTruthy j1 = true → s.max? = some j2 → jTruthy j2 = true →
      pseudocolorFillMissingValues s bands = s ∧
      pseudocolorGetChecksum (pseudocolorFillMissingValues s bands) =
        pseudocolorGetChecksum s) := by
  constructor
  · intro s bands j1 j2 hm1 ht1 hm2 ht2
    have h : monochromeFillMissingValues s bands = s := by
      unfold monochromeFillMissingValues
      cases hb : s.band with
      | none => rfl
      | some bi =>
        cases hg : bands[bi]? with
        | none => simp [hg]
        | some b => simp [hg, optTruthy, hm1, ht1, hm2, ht2, ← hb]
    exact ⟨h, by rw [h]⟩
  · intro s bands j1 j2 hm1 ht1 hm2 ht2
    have h : pseudocolorFillMissingValues s bands = s := by
      unfold pseudocolorFillMissingValues
      cases hb : s.band with
      | none => rfl
      | some bi =>
        cases hg : bands[bi]? with
        | none => simp [hg]
        | some b => simp [hg, optTruthy, hm1, ht1, hm2, ht2, ← hb]
    exact ⟨h, by rw [h]⟩

/-- Witness for C8: min 3, max 10 (both truthy) are left unchanged. -/
theorem c8_fill_preserves_truthy_bounds_witness :
    monochromeFillMissingValues ⟨some (num 3), some (num 10), some 0⟩
        [mkBand [5, 7] none] = ⟨some (num 3), some (num 10), some 0⟩ ∧
    pseudocolorFillMissingValues
        ⟨some (num 3), some (num 10), some 0, ⟨0, 0, 0, 1⟩, ⟨255, 255, 255, 1⟩,
          PseudocolorMode.interpolate, []⟩ [mkBand [5, 7] none] =
      ⟨some (num 3), some (num 10), some 0, ⟨0, 0, 0, 1⟩, ⟨255, 255, 255, 1⟩,
        PseudocolorMode.interpolate, []⟩ :=
  ⟨(c8_fill_preserves_truthy_bounds.1 ⟨some (num 3), some (num 10), some 0⟩
      [mkBand [5, 7] none] (num 3) (num 10) rfl (by decide) rfl (by decide)).1,
   (c8_fill_preserves_truthy_bounds.2
      ⟨some (num 3), some (num 10), some 0, ⟨0, 0, 0, 1⟩, ⟨255, 255, 255, 1⟩,
        PseudocolorMode.interpolate, []⟩
      [mkBand [5, 7] none] (num 3) (num 10) rfl (by decide) rfl (by decide)).1⟩

/-- Counterexample to C8 as stated: with `min = 0` **set** (and `max = 10`
set), `fillMissingValues` still overwrites `min` with the band-statistics
minimum 5, because the source tests `!this.getMin()` (falsy) rather than
"unset". -/
theorem c8_zero_min_overwritten :
    (⟨some (num 0), some (num 10), some 0⟩ : Monochrome).min?.isSome = true ∧
    (⟨some (num 0), some (num 10), some 0⟩ : Monochrome).max?.isSome = true ∧
    (monochromeFillMissingValues ⟨some (num 0), some (num 10), some 0⟩
        [mkBand [5, 7] none]).min? = some (num 5) ∧
    monochromeFillMissingValues ⟨some (num 0), some (num 10), some 0⟩
        [mkBand [5, 7] none] ≠ ⟨some (num 0), some (num 10), some 0⟩ := by
  decide

/-! ## Claim C4 — band statistics -/

/-- `jle` is reflexive away from `NaN`. -/
theorem jle_refl_of_ne_nan (a : JNum) (h : a ≠ JNum.nan) : jle a a = true := by
  cases a <;> simp [jle] at h ⊢

/-- `jle` is transitive (`NaN` cases are vacuous). -/
theorem jle_trans' {a b c : JNum} (h1 : jle a b = true) (h2 : jle b c = true) :
    jle a c = true := by
  cases a <;> cases b <;> cases c <;> simp [jle] at h1 h2 ⊢ <;> linarith

/-- Strict implies non-strict. -/
theorem jlt_jle {a b : JNum} (h : jlt a b = true) : jle a b = true := by
  cases a <;> cases b <;> simp [jlt, jle] at h ⊢ <;> linarith

/-- If `v < a` is false and `a` is not `NaN`, then `a <= v`. -/
theorem not_jlt_left {a : JNum} {v : ℚ} (hn : a ≠ JNum.nan)
    (h : jlt (num v) a = false) : jle a (num v) = true := by
  cases a <;> simp [jlt, jle] at h hn ⊢ <;> linarith

/-- If `a < v` is false and `a` is not `NaN`, then `v <= a`. -/
theorem not_jlt_right {a : JNum} {v : ℚ} (hn : a ≠ JNum.nan)
    (h : jlt a (num v) = false) : jle (num v) a = true := by
  cases a <;> simp [jlt, jle] at h hn ⊢ <;> linarith

/-- Invariants of the first statistics pass: the running min/max never become
`NaN`, only tighten, and bound every non-null cell processed. -/
theorem statsFold_min_max (n : Option ℚ) :
    ∀ (m : List ℚ) (acc : JNum × JNum × ℚ × ℕ), acc.1 ≠ JNum.nan → acc.2.1 ≠ JNum.nan →
      (m.foldl (statsStep n) acc).1 ≠ JNum.nan ∧
      (m.foldl (statsStep n) acc).2.1 ≠ JNum.nan ∧
      jle (m.foldl (statsStep n) acc).1 acc.1 = true ∧
      jle acc.2.1 (m.foldl (statsStep n) acc).2.1 = true ∧
      ∀ v ∈ m, cellValid n v = true →
        jle (m.foldl (statsStep n) acc).1 (num v) = true ∧
        jle (num v) (m.foldl (statsStep n) acc).2.1 = true := by
  intro m
  induction m with
  | nil =>
    intro acc h1 h2
    exact ⟨h1, h2, jle_refl_of_ne_nan _ h1, jle_refl_of_ne_nan _ h2, by simp⟩
  | cons v rest ih =>
    intro acc h1 h2
    rw [List.foldl_cons]
    by_cases hv : cellValid n v = true
    · have e1 : (statsStep n acc v).1 = if jlt (num v) acc.1 then num v else acc.1 := by
        simp [statsStep, hv]
      have e2 : (statsStep n acc v).2.1 =
          if jlt acc.2.1 (num v) then num v else acc.2.1 := by
        simp [statsStep, hv]
      have hmin1 : (statsStep n acc v).1 ≠ JNum.nan := by
        rw [e1]; split
        · simp
        · exact h1
      have hmax1 : (statsStep n acc v).2.1 ≠ JNum.nan := by
        rw [e2]; split
        · simp
        · exact h2
      have hle1 : jle (statsStep n acc v).1 acc.1 = true := by
        rw [e1]; split
        · rename_i hc; exact jlt_jle hc
        · exact jle_refl_of_ne_nan _ h1
      have hle2 : jle acc.2.1 (statsStep n acc v).2.1 = true := by
        rw [e2]; split
        · rename_i hc; exact jlt_jle hc
        · exact jle_refl_of_ne_nan _ h2
      have hlev : jle (statsStep n acc v).1 (num v) = true := by
        rw [e1]; split
        · exact jle_refl_of_ne_nan _ (by simp)
        · rename_i hc
          exact not_jlt_left h1 (by simpa using hc)
      have hlev2 : jle (num v) (statsStep n acc v).2.1 = true := by
        rw [e2]; split
        · exact jle_refl_of_ne_nan _ (by simp)
        · rename_i hc
          exact not_jlt_right h2 (by simpa using hc)
      obtain ⟨r1, r2, r3, r4, r5⟩ := ih (statsStep n acc v) hmin1 hmax1
      refine ⟨r1, r2, jle_trans' r3 hle1, jle_trans' hle2 r4, ?_⟩
      intro w hw hcv
      rcases List.mem_cons.mp hw with rfl | hw2
      · exact ⟨jle_trans' r3 hlev, jle_trans' hlev2 r4⟩
      · exact r5 w hw2 hcv
    · have hstep : statsStep n acc v = acc := by simp [statsStep, hv]
      rw [hstep]
      obtain ⟨r1, r2, r3, r4, r5⟩ := ih acc h1 h2
      refine ⟨r1, r2, r3, r4, ?_⟩
      intro w hw hcv
      rcases List.mem_cons.mp hw with rfl | hw2
      · exact absurd hcv hv
      · exact r5 w hw2 hcv

/-- The sum and count of the first statistics pass are the sum and length of
the non-null cells. -/
theorem statsFold_sum_count (n : Option ℚ) :
    ∀ (m : List ℚ) (acc : JNum × JNum × ℚ × ℕ),
      (m.foldl (statsStep n) acc).2.2.1 = acc.2.2.1 + (m.filter (cellValid n)).sum ∧
      (m.foldl (statsStep n) acc).2.2.2 = acc.2.2.2 + (m.filter (cellValid n)).length := by
  intro m
  induction m with
  | nil => intro acc; simp
  | cons v rest ih =>
    intro acc
    rw [List.foldl_cons]
    by_cases hv : cellValid n v = true
    · obtain ⟨s1, s2⟩ := ih (statsStep n acc v)
      have e3 : (statsStep n acc v).2.2.1 = acc.2.2.1 + v := by simp [statsStep, hv]
      have e4 : (statsStep n acc v).2.2.2 = acc.2.2.2 + 1 := by simp [statsStep, hv]
      rw [s1, s2, e3, e4]
      simp only [List.filter_cons, hv, if_true, List.sum_cons, List.length_cons]
      constructor
      · ring
      · omega
    · obtain ⟨s1, s2⟩ := ih acc
      have hstep : statsStep n acc v = acc := by simp [statsStep, hv]
      rw [hstep, s1, s2]
      simp [List.filter_cons, hv]

/-- The first statistics pass over an all-null matrix leaves the accumulator
untouched. -/
theorem statsFold_all_null (n : Option ℚ) :
    ∀ (m : List ℚ) (acc : JNum × JNum × ℚ × ℕ), (∀ v ∈ m, cellValid n v = false) →
      m.foldl (statsStep n) acc = acc := by
  intro m
  induction m with
  | nil => intro acc _; rfl
  | cons v rest ih =>
    intro acc hall
    rw [List.foldl_cons]
    have hstep : statsStep n acc v = acc := by
      simp [statsStep, hall v (List.mem_cons_self v rest)]
    rw [hstep]
    exact ih acc (fun w hw => hall w (List.mem_cons_of_mem v hw))

/-- The second statistics pass over an all-null matrix returns its
accumulator. -/
theorem varFold_all_null (n : Option ℚ) (avg : JNum) :
    ∀ (m : List ℚ) (acc : JNum), (∀ v ∈ m, cellValid n v = false) →
      m.foldl (varStep n avg) acc = acc := by
  intro m
  induction m with
  | nil => intro acc _; rfl
  | cons v rest ih =>
    intro acc hall
    rw [List.foldl_cons]
    have hstep : varStep n avg acc v = acc := by
      simp [varStep, hall v (List.mem_cons_self v rest)]
    rw [hstep]
    exact ih acc (fun w hw => hall w (List.mem_cons_of_mem v hw))

/-- With a finite average, the second statistics pass is the exact sum of
squared deviations over the non-null cells. -/
theorem statsPass2_num (n : Option ℚ) (μ : ℚ) :
    ∀ (m : List ℚ) (a : ℚ),
      m.foldl (varStep n (num μ)) (num a) =
        num (a + ((m.filter (cellValid n)).map (fun v => (v - μ) ^ 2)).sum) := by
  intro m
  induction m with
  | nil => intro a; simp
  | cons v rest ih =>
    intro a
    rw [List.foldl_cons]
    by_cases hv : cellValid n v = true
    · have hstep : varStep n (num μ) (num a) v = num (a + (v - μ) * (v - μ)) := by
        simp only [varStep, hv, if_true, jsub, jadd, jneg, jmul]
        congr 1
        ring
      rw [hstep, ih]
      simp only [List.filter_cons, hv, if_true, List.map_cons, List.sum_cons]
      congr 1
      ring
    · have hstep : varStep n (num μ) (num a) v = num a := by simp [varStep, hv]
      rw [hstep, ih]
      simp [List.filter_cons, hv]

/-- The population variance of a list of values: the mean squared deviation
from the mean (`NaN` for an empty list, matching `0 / 0`). -/
def popVariance (vals : List ℚ) : JNum :=
  jdiv (num ((vals.map (fun v => (v - vals.sum / (vals.length : ℚ)) ^ 2)).sum))
    (num (vals.length : ℚ))

/-- The variance computed by `calculateStatistics` is exactly the population
variance of the non-null cells (including the `NaN = 0/0` case for an
all-null matrix). -/
theorem calc_variance_eq (m : List ℚ) (n : Option ℚ) :
    (calculateStatistics m n).variance = popVariance (m.filter (cellValid n)) := by
  have hsum := (statsFold_sum_count n m (JNum.posInf, JNum.negInf, 0, 0)).1
  have hcount := (statsFold_sum_count n m (JNum.posInf, JNum.negInf, 0, 0)).2
  simp only [zero_add] at hsum hcount
  by_cases hf : (m.filter (cellValid n)).length = 0
  · have hnil : m.filter (cellValid n) = [] := List.length_eq_zero.mp hf
    have hall : ∀ v ∈ m, cellValid n v = false := by
      intro v hv
      have := List.filter_eq_nil_iff.mp hnil v hv
      simpa using this
    unfold calculateStatistics statsPass2 popVariance statsPass1
    rw [varFold_all_null n _ m (num 0) hall, hsum, hcount, hnil]
    simp [jdiv]
  · unfold calculateStatistics statsPass2 popVariance statsPass1
    have hfq : ((m.filter (cellValid n)).length : ℚ) ≠ 0 := by
      exact_mod_cast hf
    have havg : jdiv (num (m.foldl (statsStep n) (JNum.posInf, JNum.negInf, 0, 0)).2.2.1)
        (num ((m.foldl (statsStep n) (JNum.posInf, JNum.negInf, 0, 0)).2.2.2 : ℚ)) =
        num ((m.filter (cellValid n)).sum / ((m.filter (cellValid n)).length : ℚ)) := by
      rw [hsum, hcount]
      simp [jdiv, hfq]
    rw [havg, statsPass2_num n _ m 0, hcount]
    simp [jdiv, hfq]

/-- C4, amended: after construction and `setNullValue`, the statistics are
those of `calculateStatistics` for the current null value: the count is the
number of non-null cells (so count plus nodata cells equals the total), min
and max bound every non-null cell, the sum is the sum of non-null cells, the
variance is the population variance of the non-null cells and is non-negative
**whenever `count > 0`**; if all cells are null then `count = 0`,
`min = Infinity`, `max = -Infinity` and the variance is `NaN` (`0 / 0`), not
a non-negative number. -/
theorem c4_band_statistics (matrix : List ℚ) (n0 n1 : Option ℚ) :
    (setNullValue (mkBand matrix n0) n1).statistics = calculateStatistics matrix n1 ∧
    (setNullValue (mkBand matrix n0) n1).statistics.count =
      (matrix.filter (cellValid n1)).length ∧
    (setNullValue (mkBand matrix n0) n1).statistics.count +
      (matrix.filter (fun v => !cellValid n1 v)).length = matrix.length ∧
    (∀ v ∈ matrix, cellValid n1 v = true →
      jle (setNullValue (mkBand matrix n0) n1).statistics.min (num v) = true ∧
      jle (num v) (setNullValue (mkBand matrix n0) n1).statistics.max = true) ∧
    (setNullValue (mkBand matrix n0) n1).statistics.sum =
      (matrix.filter (cellValid n1)).sum ∧
    (setNullValue (mkBand matrix n0) n1).statistics.variance =
      popVariance (matrix.filter (cellValid n1)) ∧
    (0 < (setNullValue (mkBand matrix n0) n1).statistics.count →
      jle (num 0) (setNullValue (mkBand matrix n0) n1).statistics.variance = true) ∧
    ((∀ v ∈ matrix, cellValid n1 v = false) →
      (setNullValue (mkBand matrix n0) n1).statistics.count = 0 ∧
      (setNullValue (mkBand matrix n0) n1).statistics.min = JNum.posInf ∧
      (setNullValue (mkBand matrix n0) n1).statistics.max = JNum.negInf ∧
      (setNullValue (mkBand matrix n0) n1).statistics.variance = JNum.nan) := by
  have hstats : (setNullValue (mkBand matrix n0) n1).statistics =
      calculateStatistics matrix n1 := by
    unfold setNullValue mkBand
    by_cases hne : n0 ≠ n1
    · simp [hne]
    · push_neg at hne
      simp [hne]
  have hsum := (statsFold_sum_count n1 matrix (JNum.posInf, JNum.negInf, 0, 0)).1
  have hcount := (statsFold_sum_count n1 matrix (JNum.posInf, JNum.negInf, 0, 0)).2
  simp only [zero_add] at hsum hcount
  have hcount2 : (calculateStatistics matrix n1).count =
      (matrix.filter (cellValid n1)).length := by
    unfold calculateStatistics statsPass1
    exact hcount
  have hsum2 : (calculateStatistics matrix n1).sum = (matrix.filter (cellValid n1)).sum := by
    unfold calculateStatistics statsPass1
    exact hsum
  have hminmax := statsFold_min_max n1 matrix (JNum.posInf, JNum.negInf, 0, 0)
    (by simp) (by simp)
  have hvar := calc_variance_eq matrix n1
  refine ⟨hstats, ?_, ?_, ?_, ?_, ?_, ?_, ?_⟩
  · rw [hstats, hcount2]
  · rw [hstats, hcount2, ← List.length_eq_length_filter_add (cellValid n1)]
  · intro v hv hcv
    rw [hstats]
    have h := hminmax.2.2.2.2 v hv hcv
    unfold calculateStatistics statsPass1
    exact h
  · rw [hstats, hsum2]
  · rw [hstats, hvar]
  · intro hpos
    rw [hstats] at hpos ⊢
    rw [hvar]
    rw [hcount2] at hpos
    unfold popVariance
    have hfq : ((matrix.filter (cellValid n1)).length : ℚ) ≠ 0 := by
      have : (matrix.filter (cellValid n1)).length ≠ 0 := Nat.pos_iff_ne_zero.mp hpos
      exact_mod_cast this
    have hnonneg : 0 ≤ ((matrix.filter (cellValid n1)).map
        (fun v => (v - (matrix.filter (cellValid n1)).sum /
          ((matrix.filter (cellValid n1)).length : ℚ)) ^ 2)).sum := by
      apply List.sum_nonneg
      intro x hx
      obtain ⟨w, _, rfl⟩ := List.mem_map.mp hx
      positivity
    have hposq : 0 ≤ ((matrix.filter (cellValid n1)).length : ℚ) := by positivity
    simp only [jdiv, hfq, if_false]
    simp [jle]
    positivity
  · intro hall
    have hnil : matrix.filter (cellValid n1) = [] :=
      List.filter_eq_nil_iff.mpr (fun v hv => by simp [hall v hv])
    have hfold := statsFold_all_null n1 matrix (JNum.posInf, JNum.negInf, 0, 0) hall
    refine ⟨?_, ?_, ?_, ?_⟩
    · rw [hstats, hcount2, hnil]; rfl
    · rw [hstats]; unfold calculateStatistics statsPass1; rw [hfold]
    · rw [hstats]; unfold calculateStatistics statsPass1; rw [hfold]
    · rw [hstats, hvar, hnil]
      simp [popVariance, jdiv]

/-- Witness for C4: matrix `[1, 2, -9999, 4]`, nodata changed from `null` to
`-9999` by `setNullValue`. -/
theorem c4_band_statistics_witness :
    jle (num 0)
        (setNullValue (mkBand [1, 2, -9999, 4] none) (some (-9999))).statistics.variance =
      true ∧
    jle (setNullValue (mkBand [1, 2, -9999, 4] none) (some (-9999))).statistics.min
        (num 2) = true :=
  ⟨(c4_band_statistics [1, 2, -9999, 4] none (some (-9999))).2.2.2.2.2.2.1 (by decide),
   ((c4_band_statistics [1, 2, -9999, 4] none (some (-9999))).2.2.2.1 2 (by decide)
      (by decide)).1⟩

/-- Counterexample to C4 as stated: a band whose only cell equals the nodata
value has variance `NaN` (`0 / 0`), which is **not** non-negative in
JavaScript (`NaN >= 0` is false). -/
theorem c4_variance_nan_counterexample :
    (setNullValue (mkBand [5] none) (some 5)).statistics.variance = JNum.nan ∧
    jle (num 0) (setNullValue (mkBand [5] none) (some 5)).statistics.variance = false := by
  decide

/-! ## Claim C5 — `getStyledBand` on missing band indices -/

/-- The multi-band gathering loop throws as soon as any referenced index has
no corresponding band. -/
theorem gatherBands_error (bands : List Band) :
    ∀ (idxs : List (Option ℕ)) (j : ℕ), some j ∈ idxs → bands.get? j = none →
      ∃ e, gatherBands bands idxs = .error e := by
  intro idxs
  induction idxs with
  | nil => intro j hj _; exact absurd hj (List.not_mem_nil _)
  | cons i rest ih =>
    intro j hj hnone
    rcases List.mem_cons.mp hj with heq | hmem
    · subst heq
      unfold gatherBands
      rw [hnone]
      exact ⟨_, rfl⟩
    · cases i with
      | none => exact ih j hmem hnone
      | some k =>
        unfold gatherBands
        cases hk : bands.get? k with
        | none => exact ⟨_, rfl⟩
        | some b =>
          obtain ⟨e, he⟩ := ih j hmem hnone
          exact ⟨e, by rw [he]; rfl⟩

/-- C5, amended: `getStyledBand` returns `null` only when the style's band
index is `undefined` (the style references no band); a style referencing a
numeric band index with no corresponding band makes `getStyledBand` **throw**
(dereference of `undefined`), modelled as `Except.error` — it does not return
null.  An existing referenced band is styled and returned. -/
theorem c5_getStyledBand_missing_band (bands : List Band)
    (applySingle : List ℚ → Option ℚ → List JNum)
    (applyMulti : List (List ℚ) → List (Option ℚ) → List JNum)
    (align : List Band → List (List ℚ)) :
    (getStyledBand bands (.single none) applySingle applyMulti align = .ok none) ∧
    (∀ (i : ℕ) (h : i < bands.length),
      getStyledBand bands (.single (some i)) applySingle applyMulti align =
        .ok (some (applySingle (bands.get ⟨i, h⟩).matrix (bands.get ⟨i, h⟩).nullValue))) ∧
    (∀ i : ℕ, bands.length ≤ i →
      ∃ e, getStyledBand bands (.single (some i)) applySingle applyMulti align =
        .error e) ∧
    (∀ (idxs : List (Option ℕ)) (j : ℕ), some j ∈ idxs → bands.length ≤ j →
      ∃ e, getStyledBand bands (.multi idxs) applySingle applyMulti align = .error e) := by
  refine ⟨rfl, ?_, ?_, ?_⟩
  · intro i h
    simp only [getStyledBand]
    rw [List.get?_eq_get h]
  · intro i h
    simp only [getStyledBand]
    rw [List.get?_eq_none.mpr h]
    exact ⟨_, rfl⟩
  · intro idxs j hj hlen
    obtain ⟨e, he⟩ := gatherBands_error bands idxs j hj (List.get?_eq_none.mpr hlen)
    simp only [getStyledBand]
    rw [he]
    exact ⟨e, rfl⟩

/-- Witness for C5 (amended): one band; an undefined index yields `null`,
index 0 is styled, index 1 throws. -/
theorem c5_getStyledBand_missing_band_witness :
    (getStyledBand [mkBand [1] none] (.single none) (fun m _ => m.map num)
        (fun _ _ => []) (fun _ => []) = .ok none) ∧
    (getStyledBand [mkBand [1] none] (.single (some 0)) (fun m _ => m.map num)
        (fun _ _ => []) (fun _ => []) = .ok (some [num 1])) ∧
    (∃ e, getStyledBand [mkBand [1] none] (.single (some 1)) (fun m _ => m.map num)
        (fun _ _ => []) (fun _ => []) = .error e) := by
  refine ⟨?_, ?_, ?_⟩
  · exact (c5_getStyledBand_missing_band [mkBand [1] none] (fun m _ => m.map num)
      (fun _ _ => []) (fun _ => [])).1
  · have h := (c5_getStyledBand_missing_band [mkBand [1] none] (fun m _ => m.map num)
      (fun _ _ => []) (fun _ => [])).2.1 0 (by norm_num)
    simpa using h
  · exact (c5_getStyledBand_missing_band [mkBand [1] none] (fun m _ => m.map num)
      (fun _ _ => []) (fun _ => [])).2.2.1 1 (by norm_num)

/-- Counterexample to C5 as stated: a single-band source and a style
referencing band index 1 makes `getStyledBand` throw a `TypeError` (an
`Except.error`), rather than returning null without throwing. -/
theorem c5_missing_band_throws :
    getStyledBand [mkBand [1] none] (.single (some 1)) (fun m _ => m.map num)
        (fun _ _ => []) (fun _ => []) =
      .error "TypeError: cannot read properties of undefined" := rfl

/-! ## Claim C9 — hit-detection early exit -/

/-- One inner loop relates to the pure descending sweep: a hit reproduces the
sweep's result, and an early group stop preserves sweep-equivalence. -/
theorem hdInner_spec (env : HDEnv) (g : ℕ) :
    ∀ (fiSucc endIdx : ℕ) (tr : List ℕ),
      (∀ r fs2 e2 tr2, hdInner env g fiSucc endIdx tr = (some r, fs2, e2, tr2) →
        hdSweep env fiSucc tr = (some r, tr2)) ∧
      (∀ fs2 e2 tr2, hdInner env g fiSucc endIdx tr = (none, fs2, e2, tr2) →
        hdSweep env fiSucc tr = hdSweep env fs2 tr2) := by
  intro fiSucc
  induction fiSucc with
  | zero =>
    intro endIdx tr
    constructor
    · intro r fs2 e2 tr2 heq
      simp [hdInner] at heq
    · intro fs2 e2 tr2 heq
      simp only [hdInner, Prod.mk.injEq] at heq
      obtain ⟨-, h2, -, h4⟩ := heq
      rw [← h2, ← h4]
  | succ fi ih =>
    intro endIdx tr
    by_cases hge : g ≤ env.startIndices[fi]?.getD 0
    · by_cases hc : hdCond env (env.features[fi]?.getD 0) = true
      · cases hcb : env.callback (env.features[fi]?.getD 0) with
        | some r =>
          have hstep : hdInner env g (fi + 1) endIdx tr =
              (some r, fi + 1, endIdx, tr ++ [env.features[fi]?.getD 0]) := by
            simp [hdInner, hge, hc, hcb]
          constructor
          · intro r2 fs2 e2 tr2 heq
            rw [hstep] at heq
            simp only [Prod.mk.injEq] at heq
            obtain ⟨h1, -, -, h4⟩ := heq
            simp [hdSweep, hc, hcb, ← h1, ← h4]
          · intro fs2 e2 tr2 heq
            rw [hstep] at heq
            simp at heq
        | none =>
          have hstep : hdInner env g (fi + 1) endIdx tr =
              hdInner env g fi (env.startIndices[fi]?.getD 0)
                (tr ++ [env.features[fi]?.getD 0]) := by
            simp [hdInner, hge, hc, hcb]
          have hsw : hdSweep env (fi + 1) tr =
              hdSweep env fi (tr ++ [env.features[fi]?.getD 0]) := by
            simp [hdSweep, hc, hcb]
          obtain ⟨ih1, ih2⟩ := ih (env.startIndices[fi]?.getD 0)
            (tr ++ [env.features[fi]?.getD 0])
          constructor
          · intro r fs2 e2 tr2 heq
            rw [hstep] at heq
            rw [hsw]
            exact ih1 r fs2 e2 tr2 heq
          · intro fs2 e2 tr2 heq
            rw [hstep] at heq
            rw [hsw]
            exact ih2 fs2 e2 tr2 heq
      · have hstep : hdInner env g (fi + 1) endIdx tr =
            hdInner env g fi (env.startIndices[fi]?.getD 0) tr := by
          simp [hdInner, hge, hc]
        have hsw : hdSweep env (fi + 1) tr = hdSweep env fi tr := by
          simp [hdSweep, hc]
        obtain ⟨ih1, ih2⟩ := ih (env.startIndices[fi]?.getD 0) tr
        constructor
        · intro r fs2 e2 tr2 heq
          rw [hstep] at heq
          rw [hsw]
          exact ih1 r fs2 e2 tr2 heq
        · intro fs2 e2 tr2 heq
          rw [hstep] at heq
          rw [hsw]
          exact ih2 fs2 e2 tr2 heq
    · have hstep : hdInner env g (fi + 1) endIdx tr = (none, fi + 1, endIdx, tr) := by
        simp [hdInner, hge]
      constructor
      · intro r fs2 e2 tr2 heq
        rw [hstep] at heq
        simp at heq
      · intro fs2 e2 tr2 heq
        rw [hstep] at heq
        simp only [Prod.mk.injEq] at heq
        obtain ⟨-, h2, -, h4⟩ := heq
        rw [← h2, ← h4]

/-- With group start 0 (the batch's first style group), the inner loop never
stops early: a `none` result means the whole range was swept. -/
theorem hdInner_zero_none (env : HDEnv) :
    ∀ (fiSucc endIdx : ℕ) (tr : List ℕ) (fs2 e2 : ℕ) (tr2 : List ℕ),
      hdInner env 0 fiSucc endIdx tr = (none, fs2, e2, tr2) → fs2 = 0 := by
  intro fiSucc
  induction fiSucc with
  | zero =>
    intro endIdx tr fs2 e2 tr2 heq
    simp only [hdInner, Prod.mk.injEq] at heq
    exact heq.2.1.symm
  | succ fi ih =>
    intro endIdx tr fs2 e2 tr2 heq
    by_cases hc : hdCond env (env.features[fi]?.getD 0) = true
    · cases hcb : env.callback (env.features[fi]?.getD 0) with
      | some r =>
        rw [show hdInner env 0 (fi + 1) endIdx tr =
            (some r, fi + 1, endIdx, tr ++ [env.features[fi]?.getD 0]) by
          simp [hdInner, hc, hcb]] at heq
        simp at heq
      | none =>
        rw [show hdInner env 0 (fi + 1) endIdx tr =
            hdInner env 0 fi (env.startIndices[fi]?.getD 0)
              (tr ++ [env.features[fi]?.getD 0]) by
          simp [hdInner, hc, hcb]] at heq
        exact ih _ _ _ _ _ heq
    · rw [show hdInner env 0 (fi + 1) endIdx tr =
          hdInner env 0 fi (env.startIndices[fi]?.getD 0) tr by
        simp [hdInner, hc]] at heq
      exact ih _ _ _ _ _ heq

/-- The outer loop over style groups whose last processed group starts at
index 0 computes exactly the descending sweep. -/
theorem hdOuter_spec (env : HDEnv) :
    ∀ (gs : List ℕ) (fiSucc endIdx : ℕ) (tr : List ℕ),
      gs.getLast? = some 0 →
      hdOuter env gs fiSucc endIdx tr = hdSweep env fiSucc tr := by
  intro gs
  induction gs with
  | nil => intro _ _ _ h; simp at h
  | cons g rest ih =>
    intro fiSucc endIdx tr hlast
    obtain ⟨sp1, sp2⟩ := hdInner_spec env g fiSucc endIdx tr
    rcases hres : hdInner env g fiSucc endIdx tr with ⟨ro, fs2, e2, tr2⟩
    cases rest with
    | nil =>
      have hg : g = 0 := by simpa using hlast
      subst hg
      cases ro with
      | some r =>
        have := sp1 r fs2 e2 tr2 hres
        simp only [hdOuter, hres]
        exact this.symm
      | none =>
        have hfs : fs2 = 0 := hdInner_zero_none env fiSucc endIdx tr fs2 e2 tr2 hres
        have := sp2 fs2 e2 tr2 hres
        simp only [hdOuter, hres]
        rw [this, hfs]
        rfl
    | cons g2 rest2 =>
      have hlast2 : (g2 :: rest2).getLast? = some 0 := by
        rwa [List.getLast?_cons_cons] at hlast
      cases ro with
      | some r =>
        have := sp1 r fs2 e2 tr2 hres
        simp only [hdOuter, hres]
        exact this.symm
      | none =>
        have := sp2 fs2 e2 tr2 hres
        simp only [hdOuter, hres]
        rw [this]
        exact ih fs2 e2 tr2 hlast2

/-- The descending sweep computes the first truthy callback result over the
eligible features in reverse drawing order, and its callback trace is the
eligible prefix up to and including the first hit (the whole eligible list
when there is no hit). -/
theorem hdSweep_spec (env : HDEnv) :
    ∀ (fi : ℕ) (tr : List ℕ),
      hdSweep env fi tr =
        ((hdEligible env fi).findSome? env.callback,
         tr ++ (hdEligible env fi).take
           ((hdEligible env fi).findIdx (fun f => (env.callback f).isSome) + 1)) := by
  intro fi
  induction fi with
  | zero => intro tr; simp [hdSweep, hdEligible]
  | succ fi ih =>
    intro tr
    have helig : hdEligible env (fi + 1) =
        if hdCond env (env.features[fi]?.getD 0) = true then
          env.features[fi]?.getD 0 :: hdEligible env fi
        else hdEligible env fi := by
      simp [hdEligible, List.range_succ, List.filter_cons]
    by_cases hc : hdCond env (env.features[fi]?.getD 0) = true
    · rw [helig, if_pos hc]
      cases hcb : env.callback (env.features[fi]?.getD 0) with
      | some r =>
        have hsw : hdSweep env (fi + 1) tr = (some r, tr ++ [env.features[fi]?.getD 0]) := by
          simp [hdSweep, hc, hcb]
        rw [hsw]
        simp [List.findSome?_cons, hcb, List.findIdx_cons]
      | none =>
        have hsw : hdSweep env (fi + 1) tr =
            hdSweep env fi (tr ++ [env.features[fi]?.getD 0]) := by
          simp [hdSweep, hc, hcb]
        rw [hsw, ih]
        simp [List.findSome?_cons, hcb, List.findIdx_cons]
    · rw [helig, if_neg hc]
      have hsw : hdSweep env (fi + 1) tr = hdSweep env fi tr := by
        simp [hdSweep, hc]
      rw [hsw, ih]

/-- C9: for every accumulated batch whose first style group starts at index 0
(the invariant established by `setFillStrokeStyle` before the first
`drawPolygon`), `drawHitDetectionReplayOneByOne` invokes the callback on the
non-skipped features (with geometry, passing the extent pre-filter) in
reverse drawing order, returns the first truthy callback result without
visiting any further feature, and returns `undefined` (`none`) when no
invocation is truthy. -/
theorem c9_hit_detection_early_exit (env : HDEnv)
    (h0 : env.styleIndices.head? = some 0) :
    drawHitDetectionReplayOneByOne env =
      ((hdEligible env (env.startIndices.length - 1)).findSome? env.callback,
       (hdEligible env (env.startIndices.length - 1)).take
         ((hdEligible env (env.startIndices.length - 1)).findIdx
           (fun f => (env.callback f).isSome) + 1)) := by
  unfold drawHitDetectionReplayOneByOne
  rw [hdOuter_spec env _ _ _ _ (by rw [List.getLast?_reverse]; exact h0)]
  rw [hdSweep_spec]
  simp

/-- A concrete accumulated batch: three features 10, 11, 12 (12 topmost),
feature 11 skipped, callback truthy only on 12. -/
def hdEnvExample : HDEnv where
  startIndices := [0, 2, 4, 6]
  features := [10, 11, 12]
  styleIndices := [0]
  skipped := fun f => f = 11
  hasGeom := fun _ => true
  featExtent := fun _ => ⟨0, 0, 1, 1⟩
  hitExtent := none
  callback := fun f => if f = 12 then some 99 else none

/-- Witness for C9 at `hdEnvExample`. -/
theorem c9_hit_detection_early_exit_witness :
    drawHitDetectionReplayOneByOne hdEnvExample =
      ((hdEligible hdEnvExample (hdEnvExample.startIndices.length - 1)).findSome?
         hdEnvExample.callback,
       (hdEligible hdEnvExample (hdEnvExample.startIndices.length - 1)).take
         ((hdEligible hdEnvExample (hdEnvExample.startIndices.length - 1)).findIdx
           (fun f => (hdEnvExample.callback f).isSome) + 1)) :=
  c9_hit_detection_early_exit hdEnvExample rfl

/-! ## Claim C3 — cached-frame early exit of `prepareFrame` -/

/-- C3, amended: if the renderer's cached resolution equals the frame
resolution, the cached revision equals the layer revision, and the frame
extent — for the canvas renderer, **after** its world-wrap widening — is
contained in the previously rendered extent, then `prepareFrame` returns
true, performs no styled-band recomputation, no spatial-index rebuild and no
replay-group creation or disposal, and leaves the coverage cache and the
cached replay group unchanged.  (As stated, the claim fails for the canvas
renderer when the wrap widening pushes the effective extent outside the
rendered extent; see the counterexample.) -/
theorem c3_prepareFrame_cached_noop :
    (∀ (env : RendererEnv) (layer : CoverageLayer) (source : CoverageSourceView)
       (fs : FrameState) (st : RendererState) (sty : ℕ),
      layer.style = some sty →
      st.renderedResolution = some fs.resolution →
      st.renderedRevision = some layer.revision →
      (match st.renderedExtent with
       | some re => containsExtent re (canvasFrameExtent source fs)
       | none => false) = true →
      (canvasPrepareFrame env layer source fs st).2.2.1 = true ∧
      (canvasPrepareFrame env layer source fs st).2.2.2 = noFX ∧
      (canvasPrepareFrame env layer source fs st).2.1.coverageCache = st.coverageCache ∧
      (canvasPrepareFrame env layer source fs st).2.1.replayGroup = st.replayGroup) ∧
    (∀ (env : RendererEnv) (layer : CoverageLayer) (source : CoverageSourceView)
       (fs : FrameState) (st : RendererState) (sty : ℕ),
      layer.style = some sty →
      st.renderedResolution = some fs.resolution →
      st.renderedRevision = some layer.revision →
      (match st.renderedExtent with
       | some re => containsExtent re fs.extent
       | none => false) = true →
      (webglPrepareFrame env layer source fs st).2.2.1 = true ∧
      (webglPrepareFrame env layer source fs st).2.2.2 = noFX ∧
      (webglPrepareFrame env layer source fs st).2.1.coverageCache = st.coverageCache ∧
      (webglPrepareFrame env layer source fs st).2.1.replayGroup = st.replayGroup) := by
  constructor
  · intro env layer source fs st sty hsty hres hrev hext
    cases hre : st.renderedExtent with
    | none => rw [hre] at hext; simp at hext
    | some re =>
      rw [hre] at hext
      have hext2 : containsExtent re (canvasFrameExtent source fs) = true := hext
      by_cases hanim : ((!layer.updateWhileAnimating && fs.animating) ||
          (!layer.updateWhileInteracting && fs.interacting)) = true
      · refine ⟨?_, ?_, ?_, ?_⟩ <;> simp [canvasPrepareFrame, hsty, hanim]
      · have hanim2 : ((!layer.updateWhileAnimating && fs.animating) ||
            (!layer.updateWhileInteracting && fs.interacting)) = false := by
          simpa using hanim
        refine ⟨?_, ?_, ?_, ?_⟩ <;>
          simp [canvasPrepareFrame, hsty, hanim2, hres, hrev, hre, hext2]
  · intro env layer source fs st sty hsty hres hrev hext
    cases hre : st.renderedExtent with
    | none => rw [hre] at hext; simp at hext
    | some re =>
      rw [hre] at hext
      have hext2 : containsExtent re fs.extent = true := hext
      by_cases hanim : ((!layer.updateWhileAnimating && fs.animating) ||
          (!layer.updateWhileInteracting && fs.interacting)) = true
      · refine ⟨?_, ?_, ?_, ?_⟩ <;> simp [webglPrepareFrame, hsty, hanim]
      · have hanim2 : ((!layer.updateWhileAnimating && fs.animating) ||
            (!layer.updateWhileInteracting && fs.interacting)) = false := by
          simpa using hanim
        refine ⟨?_, ?_, ?_, ?_⟩ <;>
          simp [webglPrepareFrame, hsty, hanim2, hres, hrev, hre, hext2]

/-- Collaborator behaviours for the concrete C3 scenarios: constant
checksums, identity fill, non-empty index queries. -/
def c3Env : RendererEnv where
  checksum := fun _ => "c"
  fillMissingValues := id
  queryNonEmpty := fun _ _ => true
  tessellate := fun _ => ([], [])

/-- A coverage layer with a style token, revision 3, rebuilds allowed during
animation/interaction, explicit stroke width 0. -/
def c3Layer : CoverageLayer := ⟨some 0, 3, true, true, some 0⟩

/-- A wrapping rectangular coverage source at revision 7 with a styled band
of cell resolution 1×1. -/
def c3Source : CoverageSourceView :=
  ⟨7, true, some CoverageType.rectangular, none, 0, some ⟨(1, 1)⟩⟩

/-- First frame: a view extent wider than the projection extent
`[0,0,10,10]`, triggering the world-wrap widening. -/
def c3Frame1 : FrameState := ⟨⟨-100, 0, 100, 10⟩, 5, 1, false, false, ⟨0, 0, 10, 10⟩, true, 0⟩

/-- Second frame: same resolution; its extent equals the first frame's
rendered (widened) extent, hence is contained in it. -/
def c3Frame2 : FrameState := ⟨⟨-100, 0, 110, 10⟩, 5, 1, false, false, ⟨0, 0, 10, 10⟩, true, 0⟩

/-- A fresh renderer state. -/
def c3State0 : RendererState :=
  ⟨none, none, none, none, none, [], none, none, none, none, false, 0⟩

/-- Witness for C3 (amended): a second canvas frame identical to the first
one — no wrap widening (extent inside the projection extent), equal
resolution and revision — is a no-op returning true; likewise for WebGL. -/
theorem c3_prepareFrame_cached_noop_witness :
    ((canvasPrepareFrame c3Env c3Layer ⟨7, false, some CoverageType.rectangular, none, 0,
        some ⟨(1, 1)⟩⟩
      ⟨⟨2, 2, 8, 8⟩, 5, 1, false, false, ⟨0, 0, 10, 10⟩, true, 0⟩
      ⟨some "c", some 7, some 1, some 1, some 8, [], some 5, some 3, some ⟨2, 2, 8, 8⟩,
        some 0, true, 2⟩).2.2.1 = true ∧
     (canvasPrepareFrame c3Env c3Layer ⟨7, false, some CoverageType.rectangular, none, 0,
        some ⟨(1, 1)⟩⟩
      ⟨⟨2, 2, 8, 8⟩, 5, 1, false, false, ⟨0, 0, 10, 10⟩, true, 0⟩
      ⟨some "c", some 7, some 1, some 1, some 8, [], some 5, some 3, some ⟨2, 2, 8, 8⟩,
        some 0, true, 2⟩).2.1.replayGroup = some 0) ∧
    ((webglPrepareFrame c3Env c3Layer ⟨7, false, some CoverageType.rectangular, none, 0,
        some ⟨(1, 1)⟩⟩
      ⟨⟨2, 2, 8, 8⟩, 5, 1, false, false, ⟨0, 0, 10, 10⟩, true, 0⟩
      ⟨some "c", some 7, some 1, some 1, some 8, [], some 5, some 3, some ⟨2, 2, 8, 8⟩,
        some 0, true, 2⟩).2.2.1 = true ∧
     (webglPrepareFrame c3Env c3Layer ⟨7, false, some CoverageType.rectangular, none, 0,
        some ⟨(1, 1)⟩⟩
      ⟨⟨2, 2, 8, 8⟩, 5, 1, false, false, ⟨0, 0, 10, 10⟩, true, 0⟩
      ⟨some "c", some 7, some 1, some 1, some 8, [], some 5, some 3, some ⟨2, 2, 8, 8⟩,
        some 0, true, 2⟩).2.1.coverageCache = some 1) := by
  constructor
  · have h := c3_prepareFrame_cached_noop.1 c3Env c3Layer
      ⟨7, false, some CoverageType.rectangular, none, 0, some ⟨(1, 1)⟩⟩
      ⟨⟨2, 2, 8, 8⟩, 5, 1, false, false, ⟨0, 0, 10, 10⟩, true, 0⟩
      ⟨some "c", some 7, some 1, some 1, some 8, [], some 5, some 3, some ⟨2, 2, 8, 8⟩,
        some 0, true, 2⟩ 0 rfl rfl rfl (by decide)
    exact ⟨h.1, h.2.2.2⟩
  · have h := c3_prepareFrame_cached_noop.2 c3Env c3Layer
      ⟨7, false, some CoverageType.rectangular, none, 0, some ⟨(1, 1)⟩⟩
      ⟨⟨2, 2, 8, 8⟩, 5, 1, false, false, ⟨0, 0, 10, 10⟩, true, 0⟩
      ⟨some "c", some 7, some 1, some 1, some 8, [], some 5, some 3, some ⟨2, 2, 8, 8⟩,
        some 0, true, 2⟩ 0 rfl rfl rfl (by decide)
    exact ⟨h.1, h.2.2.1⟩

/-- The explicit state after the first C3 frame. -/
def c3State1 : RendererState :=
  ⟨some "c", some 7, some 1, some 1, some 8, [], some 5, some 3,
    some ⟨-100, 0, 110, 10⟩, some 0, true, 2⟩

/-- The first C3 frame renders fully: wrap widening produces the extent
`[-100, 0, 110, 10]`, the styled band is computed, the spatial index built,
and the replay group created. -/
theorem c3_call1_eval :
    canvasPrepareFrame c3Env c3Layer c3Source c3Frame1 c3State0 =
      (c3Layer, c3State1, true, ⟨true, true, true, false, some 0⟩) := by
  norm_num [canvasPrepareFrame, canvasPrepareFrameTail, canvasFrameExtent,
    canvasCellCoordinates, containsExtent, getWidth, qmax, projEquivalent, noFX, c3Env,
    c3Layer, c3Source, c3Frame1, c3State0, c3State1]
  intro h
  exact Option.noConfusion h

/-- The second C3 frame: wrap widening now produces `[-105, 0, 115, 10]`,
which escapes the rendered extent, so the cached-batch early exit is missed;
the styled band and spatial index are reused (checksum and revision match)
but a fresh replay group is created. -/
theorem c3_call2_eval :
    canvasPrepareFrame c3Env c3Layer c3Source c3Frame2 c3State1 =
      (c3Layer,
       ⟨some "c", some 7, some 1, some 1, some 8, [], some 5, some 3,
         some ⟨-105, 0, 115, 10⟩, some 2, true, 3⟩,
       true, ⟨false, false, true, false, some 0⟩) := by
  norm_num [canvasPrepareFrame, canvasPrepareFrameTail, canvasFrameExtent,
    canvasCellCoordinates, containsExtent, getWidth, qmax, projEquivalent, noFX, c3Env,
    c3Layer, c3Source, c3Frame2, c3State1]

/-- Counterexample to C3 as stated: a wrapping canvas coverage.  The first
frame renders successfully; the second frame has equal resolution, equal
layer revision, and its (raw) extent is exactly the previously rendered
extent — yet because the world-wrap widening enlarges the query extent past
the rendered extent, the second call misses the cached-batch early exit and
recreates the replay group (the spatial index and styled band are still
reused).  The second call therefore does **not** leave the cached replay
group unchanged. -/
theorem c3_canvas_wrapx_counterexample :
    (canvasPrepareFrame c3Env c3Layer c3Source c3Frame1 c3State0).2.2.1 = true ∧
    (canvasPrepareFrame c3Env c3Layer c3Source c3Frame1 c3State0).2.1.renderedResolution =
      some c3Frame2.resolution ∧
    (canvasPrepareFrame c3Env c3Layer c3Source c3Frame1 c3State0).2.1.renderedRevision =
      some c3Layer.revision ∧
    containsExtent
      (((canvasPrepareFrame c3Env c3Layer c3Source c3Frame1 c3State0).2.1.renderedExtent).getD
        ⟨0, 0, 0, 0⟩) c3Frame2.extent = true ∧
    (canvasPrepareFrame c3Env
        (canvasPrepareFrame c3Env c3Layer c3Source c3Frame1 c3State0).1 c3Source c3Frame2
        (canvasPrepareFrame c3Env c3Layer c3Source c3Frame1 c3State0).2.1).2.2.2.styledBandComputed =
      false ∧
    (canvasPrepareFrame c3Env
        (canvasPrepareFrame c3Env c3Layer c3Source c3Frame1 c3State0).1 c3Source c3Frame2
        (canvasPrepareFrame c3Env c3Layer c3Source c3Frame1 c3State0).2.1).2.2.2.gridRebuilt =
      false ∧
    (canvasPrepareFrame c3Env
        (canvasPrepareFrame c3Env c3Layer c3Source c3Frame1 c3State0).1 c3Source c3Frame2
        (canvasPrepareFrame c3Env c3Layer c3Source c3Frame1 c3State0).2.1).2.2.2.replayGroupCreated =
      true ∧
    (canvasPrepareFrame c3Env
        (canvasPrepareFrame c3Env c3Layer c3Source c3Frame1 c3State0).1 c3Source c3Frame2
        (canvasPrepareFrame c3Env c3Layer c3Source c3Frame1 c3State0).2.1).2.1.replayGroup ≠
      (canvasPrepareFrame c3Env c3Layer c3Source c3Frame1 c3State0).2.1.replayGroup := by
  rw [c3_call1_eval]
  refine ⟨rfl, rfl, rfl, ?_, ?_, ?_, ?_, ?_⟩
  · norm_num [c3State1, c3Frame2, containsExtent]
  · rw [c3_call2_eval]
  · rw [c3_call2_eval]
  · rw [c3_call2_eval]
  · rw [c3_call2_eval]
    simp [c3State1]

end OlCov
